import Mathlib

/-!
Verification development for the `igupta1/personal-website` lead-discovery
pipelines.  Python sources are shallowly embedded: pure string manipulation is
modelled over `List Char` (Python `str` methods are re-implemented so that all
definitions are executable and kernel-reducible), SQLite tables are modelled as
lists of row structures with explicit `UNIQUE`-constraint checks, wall-clock
time is an abstract `Nat` parameter, and network calls are oracles passed in as
explicit arguments.  Fallible operations return `Except`.
-/

namespace Str

/-- Python `str.lower` (restricted to the ASCII fold performed by
`Char.toLower`; all keyword tables in the sources are ASCII). -/
def lower (s : String) : String := ⟨s.data.map Char.toLower⟩

/-- Boolean prefix test on character lists. -/
def isPrefixList : List Char → List Char → Bool
  | [], _ => true
  | _ :: _, [] => false
  | a :: as, b :: bs => a = b && isPrefixList as bs

/-- Boolean infix (substring) test on character lists. -/
def infixList (sub : List Char) : List Char → Bool
  | [] => sub.isEmpty
  | h :: t => isPrefixList sub (h :: t) || infixList sub t

/-- Python `sub in hay` substring containment. -/
def containsStr (hay sub : String) : Bool := infixList sub.data hay.data

/-- Python `str.strip`: drop leading and trailing whitespace. -/
def trim (s : String) : String :=
  ⟨((s.data.dropWhile Char.isWhitespace).reverse.dropWhile Char.isWhitespace).reverse⟩

/-- Python `s.replace(old, new)` for single-character `old`/`new`. -/
def replaceChar (s : String) (old new : Char) : String :=
  ⟨s.data.map (fun c => if c = old then new else c)⟩

/-- Python `s.replace(old, "")` for a single-character `old`. -/
def dropChar (s : String) (old : Char) : String :=
  ⟨s.data.filter (fun c => c ≠ old)⟩

/-- Accumulator for `split`: splits on whitespace, discarding empty words,
like Python `str.split()` with no argument. -/
def splitWsAux : List Char → List Char → List (List Char) → List (List Char)
  | [], cur, acc =>
    (if cur.isEmpty then acc else cur.reverse :: acc).reverse
  | c :: t, cur, acc =>
    if Char.isWhitespace c then
      if cur.isEmpty then splitWsAux t [] acc
      else splitWsAux t [] (cur.reverse :: acc)
    else splitWsAux t (c :: cur) acc

/-- Python `str.split()` (whitespace split, empty words discarded). -/
def splitWs (s : String) : List String :=
  (splitWsAux s.data [] []).map (fun l => ⟨l⟩)

/-- First component of Python `s.split(".")`: characters before the first dot. -/
def beforeDot (s : String) : String := ⟨s.data.takeWhile (fun c => c ≠ '.')⟩

/-- Python truthiness of a string: non-empty. -/
def truthy (s : String) : Bool := !s.data.isEmpty

/-- Python truthiness of `Optional[str]`: present and non-empty. -/
def truthyOpt : Option String → Bool
  | none => false
  | some s => truthy s

end Str

/-- `min` on `ℚ` written with an `if` so that it kernel-reduces (used where the
Python sources call `min` on numeric scores). -/
def ratMin (a b : ℚ) : ℚ := if a ≤ b then a else b

theorem ratMin_le_right (a b : ℚ) : ratMin a b ≤ b := by
  unfold ratMin; split
  · assumption
  · exact le_refl b

theorem ratMin_nonneg {a b : ℚ} (ha : 0 ≤ a) (hb : 0 ≤ b) : 0 ≤ ratMin a b := by
  unfold ratMin; split
  · exact ha
  · exact hb

/-!
## `MarketingListDiscovery/core/relevance_scorer.py` — `RoleRelevanceScorer`

Embeds the keyword tables and `score` verbatim.  Scores are rationals (the
Python floats involved are all integer-valued: base 80, boosts in steps of 4
capped at 20, cap 100), the threshold is the `relevance_threshold`
configuration value (default 60.0).
-/

namespace RoleRelevanceScorer

def MARKETING_SIGNALS : List String :=
  ["marketing", "seo", "ppc", "copywriter", "copywriting", "social media",
   "social strategist", "brand manager", "brand director", "brand strategist",
   "demand gen", "content strategist", "content manager", "influencer",
   "paid media", "paid social", "paid acquisition", "growth marketing",
   "growth marketer", "cmo", "chief marketing", "public relations",
   "communications manager", "communications director", "pr manager",
   "pr director", "media buyer"]

def SIGNAL_TO_CATEGORY : List (String × String) :=
  [("marketing", "general_marketing"), ("seo", "seo"),
   ("ppc", "performance_marketing"), ("copywriter", "content_marketing"),
   ("copywriting", "content_marketing"), ("social media", "social_media"),
   ("brand manager", "brand_marketing"), ("brand director", "brand_marketing"),
   ("brand strategist", "brand_marketing"), ("demand gen", "demand_generation"),
   ("content strategist", "content_marketing"),
   ("influencer", "influencer_marketing"), ("paid media", "performance_marketing"),
   ("paid social", "performance_marketing"),
   ("paid acquisition", "performance_marketing"),
   ("growth marketing", "growth_marketing"), ("growth marketer", "growth_marketing"),
   ("cmo", "marketing_leadership"), ("chief marketing", "marketing_leadership"),
   ("public relations", "communications"),
   ("communications manager", "communications"),
   ("communications director", "communications"), ("pr manager", "communications"),
   ("pr director", "communications"), ("media buyer", "performance_marketing")]

def EXCLUSION_KEYWORDS : List String :=
  ["engineer", "developer", "software", "backend", "frontend", "full stack",
   "fullstack", "data scientist", "machine learning", "devops", "sre",
   "site reliability", "data engineer", "ml engineer", "ai engineer",
   "security engineer", "infrastructure", "platform engineer", "qa engineer",
   "quality assurance", "test engineer",
   "sales representative", "account executive", "sdr", "bdr",
   "sales development", "business development", "sales manager",
   "director of sales", "sales training", "sales enablement",
   "sales operations", "sales analyst", "sales associate", "sales coordinator",
   "account manager", "key account",
   "recruiter", "people ops", "talent acquisition", "talent partner",
   "human resources",
   "finance", "accounting", "legal", "compliance", "general counsel",
   "accountant", "financial analyst", "financial planning",
   "investor relations", "capital markets",
   "customer success", "customer support", "customer service",
   "support engineer", "technical support", "student success",
   "operations manager", "director of operations", "operations analyst",
   "operations associate", "operations coordinator", "operations executive",
   "office manager", "executive assistant", "administrative", "facilities",
   "supply chain", "implementation", "revenue operations",
   "business operations", "general manager",
   "product manager", "product designer", "product owner",
   "product operations",
   "shipping", "freight", "logistics", "marine", "surveyor",
   "move coordinator", "buyer",
   "growth manager", "growth associate", "growth hacker", "head of growth",
   "teacher", "childcare", "preschool", "early childhood",
   "learning specialist", "education manager", "academic", "instructor",
   "tutor",
   "research mentor", "enrollment manager", "head of partnerships",
   "partnerships manager", "video editor", "scriptwriter",
   "founder in residence", "online events", "vip manager", "avionics",
   "mission development", "project manager", "program manager"]

/-- Terms scanned in the description for the score boost (step 4 of `score`). -/
def descriptionTerms : List String :=
  ["marketing", "campaign", "brand", "content", "seo", "growth",
   "acquisition", "funnel", "conversion", "analytics", "strategy"]

structure RelevanceResult where
  score : ℚ
  matchedCategory : String
  matchedKeywords : List String
  isRelevant : Bool
  deriving Repr, DecidableEq

/-- The `if`/`elif` chain that refines the category from title keywords. -/
def refineCategory (titleLower : String) (category : String) : String :=
  if Str.containsStr titleLower ("director") || Str.containsStr titleLower ("vp")
      || Str.containsStr titleLower ("head of") then "marketing_leadership"
  else if Str.containsStr titleLower ("product marketing") then "product_marketing"
  else if Str.containsStr titleLower ("content") then "content_marketing"
  else if Str.containsStr titleLower ("brand") then "brand_marketing"
  else if Str.containsStr titleLower ("demand") then "demand_generation"
  else if Str.containsStr titleLower ("growth") then "growth_marketing"
  else if Str.containsStr titleLower ("social") then "social_media"
  else if Str.containsStr titleLower ("seo") then "seo"
  else if Str.containsStr titleLower ("paid") || Str.containsStr titleLower ("ppc")
      || Str.containsStr titleLower ("performance") then "performance_marketing"
  else if Str.containsStr titleLower ("email") || Str.containsStr titleLower ("lifecycle")
      || Str.containsStr titleLower ("retention") then "lifecycle_crm"
  else category

/-- Step 4 of `score`: description boost, `min(matches * 4, 20)` when the
description is non-empty, else 0.  Computed in `ℕ`: every float the Python
code manipulates here is a small non-negative integer value, on which float
arithmetic is exact. -/
def descriptionBoost (jobDescription : String) : ℕ :=
  if Str.truthy jobDescription then
    min ((descriptionTerms.filter
      (fun t => Str.containsStr (Str.lower jobDescription) t)).length * 4) 20
  else 0

/-- `final_score = min(base_score + description_boost, 100.0)` with base 80,
computed in `ℕ` and cast to `ℚ` for the stored score. -/
def finalScore (jobDescription : String) : ℚ :=
  ((min (80 + descriptionBoost jobDescription) 100 : ℕ) : ℚ)

/-- Category from the matched signal: `SIGNAL_TO_CATEGORY.get(signal,
"general_marketing")` then the keyword refinement chain. -/
def categoryOf (titleLower matchedSignal : String) : String :=
  refineCategory titleLower
    (((SIGNAL_TO_CATEGORY.find? (fun p => p.1 = matchedSignal)).map
      Prod.snd).getD ("general_marketing"))

/-- `title_lower = job_title.lower().strip()`. -/
def titleLowerOf (jobTitle : String) : String := Str.trim (Str.lower jobTitle)

/-- `RoleRelevanceScorer.score(job_title, job_description)` with the configured
threshold passed explicitly (`self.threshold`, default 60.0). -/
def score (threshold : ℚ) (jobTitle : String) (jobDescription : String) :
    RelevanceResult :=
  if EXCLUSION_KEYWORDS.any
      (fun k => Str.containsStr (titleLowerOf jobTitle) k) then
    ⟨0, "excluded", [], false⟩
  else
    match MARKETING_SIGNALS.find?
        (fun s => Str.containsStr (titleLowerOf jobTitle) s) with
    | none => ⟨0, "no_marketing_signal", [], false⟩
    | some matchedSignal =>
      ⟨finalScore jobDescription, categoryOf (titleLowerOf jobTitle) matchedSignal,
       [matchedSignal], decide (finalScore jobDescription ≥ threshold)⟩

theorem finalScore_nonneg (d : String) : 0 ≤ finalScore d := by
  unfold finalScore; positivity

theorem finalScore_le_100 (d : String) : finalScore d ≤ 100 := by
  unfold finalScore
  have h := min_le_right (80 + descriptionBoost d) 100
  calc ((min (80 + descriptionBoost d) 100 : ℕ) : ℚ)
      ≤ ((100 : ℕ) : ℚ) := by exact_mod_cast h
    _ = 100 := by norm_num

end RoleRelevanceScorer

/-- C3: for every `(title, description)` and any positive configured threshold
(the default is 60), `RoleRelevanceScorer.score` returns a score in `[0, 100]`
and `is_relevant = true` exactly when `score ≥ threshold`; in particular the
biconditional also holds on the excluded and no-signal branches, which return
score 0 with `is_relevant = false`. -/
theorem claimC3_relevance_scorer_totality (threshold : ℚ) (h : 0 < threshold)
    (title desc : String) :
    0 ≤ (RoleRelevanceScorer.score threshold title desc).score ∧
    (RoleRelevanceScorer.score threshold title desc).score ≤ 100 ∧
    ((RoleRelevanceScorer.score threshold title desc).isRelevant = true ↔
      (RoleRelevanceScorer.score threshold title desc).score ≥ threshold) := by
  have hzero : ∀ cat : String,
      0 ≤ ((⟨0, cat, [], false⟩ : RoleRelevanceScorer.RelevanceResult)).score ∧
      ((⟨0, cat, [], false⟩ : RoleRelevanceScorer.RelevanceResult)).score ≤ 100 ∧
      (((⟨0, cat, [], false⟩ : RoleRelevanceScorer.RelevanceResult)).isRelevant
          = true ↔
        ((⟨0, cat, [], false⟩ : RoleRelevanceScorer.RelevanceResult)).score
          ≥ threshold) := by
    intro cat
    refine ⟨le_refl 0, by norm_num, ?_, ?_⟩
    · intro hfalse; exact absurd hfalse (by simp)
    · intro hge; exact absurd (lt_of_lt_of_le h hge) (by norm_num)
  unfold RoleRelevanceScorer.score
  split
  · exact hzero ("excluded")
  · split
    · exact hzero ("no_marketing_signal")
    · exact ⟨RoleRelevanceScorer.finalScore_nonneg desc,
        RoleRelevanceScorer.finalScore_le_100 desc, by simp [decide_eq_true_eq]⟩

/-- Witness for C3 at the default threshold 60 and a concrete job title. -/
theorem claimC3_relevance_scorer_totality_witness :
    (0:ℚ) < 60 ∧
    (0 ≤ (RoleRelevanceScorer.score 60 ("Marketing Manager") ("")).score ∧
     (RoleRelevanceScorer.score 60 ("Marketing Manager") ("")).score ≤ 100 ∧
     ((RoleRelevanceScorer.score 60 ("Marketing Manager") ("")).isRelevant = true ↔
       (RoleRelevanceScorer.score 60 ("Marketing Manager") ("")).score ≥ 60)) :=
  ⟨by norm_num,
   claimC3_relevance_scorer_totality 60 (by norm_num) ("Marketing Manager") ("")⟩


/-!
## `MarketingListDiscovery/ats/enhanced_detector.py` —
`EnhancedATSDetector.generate_token_variations`

The Python function accumulates candidate tokens in a `set`, filters them into
a second `set`, and returns `list(valid_variations)`.  A CPython `set` does not
preserve insertion order: iteration order depends on the process-level string
hash seed, so only the *membership* of the returned list is determined by the
inputs.  The embedding therefore records (a) `variations_raw`: the exact
sequence of candidate tokens the code adds to the set, in program order, and
(b) `isTokenOutput`: the predicate characterising the possible return values
of `generate_token_variations` — any duplicate-free enumeration of the set of
valid candidates.
-/

namespace EnhancedATSDetector

/-- `re.sub(r'[^a-zA-Z0-9\s-]', '', company_name)`: keep ASCII alphanumerics,
whitespace and hyphens. -/
def name_clean (companyName : String) : String :=
  ⟨companyName.data.filter
    (fun c => c.isAlphanum || c.isWhitespace || c = '-')⟩

/-- `"".join(w[0] for w in words if len(w) > 0)`. -/
def acronymOf (words : List String) : String :=
  ⟨words.filterMap (fun w => w.data.head?)⟩

/-- First word of the (cleaned, lowercased) company name, when any. -/
def firstWordPart : List String → List String
  | [] => []
  | w :: _ => [w]

/-- Acronym candidate: added for names of ≥ 3 words when the acronym has
≥ 3 letters. -/
def acronymPart (words : List String) : List String :=
  if words.length ≥ 3 then
    if (acronymOf words).data.length ≥ 3 then [acronymOf words] else []
  else []

/-- Lowercased LinkedIn slug candidate, when a truthy slug is available. -/
def slugPart : Option String → List String
  | none => []
  | some s => if Str.truthy s then [Str.lower s] else []

/-- The candidate tokens added to the `variations` set, in program order:
domain base, domain base without hyphens, name without spaces, name with
hyphens, first word of the name, acronym, and the LinkedIn slug. -/
def variations_raw (companyName domain : String)
    (linkedinSlug : Option String) : List String :=
  [Str.lower (Str.beforeDot domain),
   Str.dropChar (Str.lower (Str.beforeDot domain)) '-',
   Str.dropChar (Str.lower (name_clean companyName)) ' ',
   Str.replaceChar (Str.lower (name_clean companyName)) ' ' '-']
  ++ firstWordPart (Str.splitWs (Str.lower (name_clean companyName)))
  ++ acronymPart (Str.splitWs (Str.lower (name_clean companyName)))
  ++ slugPart linkedinSlug

/-- The validity filter applied to each (stripped) candidate: discard tokens
of length ≤ 2 or ≥ 50, containing an underscore or any of the characters
`()&,. `, or ending in a hyphen. -/
def isValidToken (v : String) : Bool :=
  !(v.data.length ≤ 2) && !(v.data.length ≥ 50) && !(v.data.contains '_') &&
  !(['(', ')', '&', ',', '.', ' '].any (fun c => v.data.contains c)) &&
  !(match v.data.getLast? with
    | some c => c = '-'
    | none => false)

/-- The members of the `valid_variations` set, with the multiplicities of the
generation sequence (the set collapses duplicates; membership is all that is
determined). -/
def valid_variations_seq (companyName domain : String)
    (linkedinSlug : Option String) : List String :=
  ((variations_raw companyName domain linkedinSlug).map Str.trim).filter
    (fun v => isValidToken v)

/-- `l` is a possible return value of `generate_token_variations`: a
duplicate-free list with exactly the members of the `valid_variations` set. -/
def isTokenOutput (companyName domain : String) (linkedinSlug : Option String)
    (l : List String) : Bool :=
  decide l.Nodup &&
  decide (∀ x ∈ l, x ∈ valid_variations_seq companyName domain linkedinSlug) &&
  decide (∀ x ∈ valid_variations_seq companyName domain linkedinSlug, x ∈ l)

/-- First-seen-order deduplication (Python-dict style), used to state the
order the spec claims for the returned candidates. -/
def firstSeenDedup (seen : List String) : List String → List String
  | [] => []
  | x :: t =>
    if x ∈ seen then firstSeenDedup seen t
    else x :: firstSeenDedup (x :: seen) t

/-- The return value the spec describes: the valid candidates uniquified in
first-seen generation order. -/
def claimedTokenList (companyName domain : String)
    (linkedinSlug : Option String) : List String :=
  firstSeenDedup [] (valid_variations_seq companyName domain linkedinSlug)

end EnhancedATSDetector


theorem firstWordPart_length_le (ws : List String) :
    (EnhancedATSDetector.firstWordPart ws).length ≤ 1 := by
  cases ws <;> simp [EnhancedATSDetector.firstWordPart]

theorem acronymPart_length_le (ws : List String) :
    (EnhancedATSDetector.acronymPart ws).length ≤ 1 := by
  unfold EnhancedATSDetector.acronymPart
  split
  · split <;> simp
  · simp

theorem slugPart_length_le (t : Option String) :
    (EnhancedATSDetector.slugPart t).length ≤ 1 := by
  cases t with
  | none => simp [EnhancedATSDetector.slugPart]
  | some s2 =>
    show (if Str.truthy s2 then [Str.lower s2] else []).length ≤ 1
    split <;> simp

theorem variations_raw_length_le (n d : String) (s : Option String) :
    (EnhancedATSDetector.variations_raw n d s).length ≤ 7 := by
  unfold EnhancedATSDetector.variations_raw
  simp only [List.length_append, List.length_cons, List.length_nil]
  have h1 := firstWordPart_length_le
    (Str.splitWs (Str.lower (EnhancedATSDetector.name_clean n)))
  have h2 := acronymPart_length_le
    (Str.splitWs (Str.lower (EnhancedATSDetector.name_clean n)))
  have h3 := slugPart_length_le s
  omega

/-- C4 (counterexample to the ordering conjunct): the code materialises the
candidates through a Python `set`, whose iteration order is not the first-seen
generation order.  For the concrete input ("Fitt Insider", "fittinsider.com")
there is a listing of the valid-candidate set that a run may return which is
not the claimed first-seen-order list. -/
theorem claimC4_counterexample :
    ¬ (∀ l : List String,
        EnhancedATSDetector.isTokenOutput ("Fitt Insider") ("fittinsider.com")
          none l = true →
        l = EnhancedATSDetector.claimedTokenList ("Fitt Insider")
          ("fittinsider.com") none) := by
  intro h
  have h2 := h (["fitt", "fittinsider", "fitt-insider"]) (by decide)
  exact absurd h2 (by decide)

/-- C4 (amended): every possible return value of `generate_token_variations`
has at most 10 (in fact at most 7) candidates, all duplicate-free, and every
candidate passes the validity filter (length in (2, 50), no underscore, none
of `()&,. `, no trailing hyphen); the *order* of the returned candidates is
unspecified because the code returns `list(valid_variations)` of a `set`. -/
theorem claimC4_token_generator_bound (companyName domain : String)
    (slug : Option String) (l : List String)
    (h : EnhancedATSDetector.isTokenOutput companyName domain slug l = true) :
    l.length ≤ 10 ∧ l.Nodup ∧
    ∀ t ∈ l, EnhancedATSDetector.isValidToken t = true := by
  unfold EnhancedATSDetector.isTokenOutput at h
  rw [Bool.and_assoc, Bool.and_eq_true, Bool.and_eq_true] at h
  obtain ⟨hnd, hsub, -⟩ := h
  have hnodup : l.Nodup := of_decide_eq_true hnd
  have hsubset : ∀ x ∈ l,
      x ∈ EnhancedATSDetector.valid_variations_seq companyName domain slug :=
    of_decide_eq_true hsub
  refine ⟨?_, hnodup, ?_⟩
  · have hcard : l.toFinset.card = l.length :=
      List.toFinset_card_of_nodup hnodup
    have hsub2 : l.toFinset ⊆
        (EnhancedATSDetector.valid_variations_seq companyName domain slug).toFinset := by
      intro x hx
      rw [List.mem_toFinset] at hx ⊢
      exact hsubset x hx
    have hlen : (EnhancedATSDetector.valid_variations_seq companyName domain
        slug).length ≤ 7 := by
      calc (EnhancedATSDetector.valid_variations_seq companyName domain
            slug).length
          ≤ ((EnhancedATSDetector.variations_raw companyName domain
              slug).map Str.trim).length := List.length_filter_le _ _
        _ = (EnhancedATSDetector.variations_raw companyName domain
              slug).length := List.length_map _ _
        _ ≤ 7 := variations_raw_length_le companyName domain slug
    have := Finset.card_le_card hsub2
    have := List.toFinset_card_le
      (EnhancedATSDetector.valid_variations_seq companyName domain slug)
    omega
  · intro t ht
    have := hsubset t ht
    unfold EnhancedATSDetector.valid_variations_seq at this
    exact (List.mem_filter.mp this).2

/-- Witness for C4's amended theorem at a concrete company and a concrete
listing of the valid-candidate set. -/
theorem claimC4_token_generator_bound_witness :
    EnhancedATSDetector.isTokenOutput ("Fitt Insider") ("fittinsider.com") none
      (["fittinsider", "fitt-insider", "fitt"]) = true ∧
    ((["fittinsider", "fitt-insider", "fitt"] : List String).length ≤ 10 ∧
     (["fittinsider", "fitt-insider", "fitt"] : List String).Nodup ∧
     ∀ t ∈ (["fittinsider", "fitt-insider", "fitt"] : List String),
       EnhancedATSDetector.isValidToken t = true) :=
  ⟨by decide,
   claimC4_token_generator_bound ("Fitt Insider") ("fittinsider.com") none
     (["fittinsider", "fitt-insider", "fitt"]) (by decide)⟩

/-!
## `MarketingListDiscovery/core/database.py` (jobs schema) and
`MarketingListDiscovery/core/change_detector.py` — `ChangeDetector`

The `jobs`, `job_changes` and `run_snapshots` tables are lists of row
structures; `nextJobId` models the `AUTOINCREMENT` primary key.  Timestamps
are abstract `Nat` clock values.  `external_id` is modelled as a (non-NULL)
`String`; the `UNIQUE(company_id, external_id)` constraint is checked
explicitly on insert, and a violating plain `INSERT` returns
`SqlError.uniqueViolation` (Python `sqlite3.IntegrityError`).  `relevance_score`
is a rational.  Python dicts are association lists built with last-wins
insertion (`dictInsert`); Python set iteration (for `removed_ids`) is taken in
dict-key order, which affects only the order, not the membership or count, of
the removed-job report entries.
-/

namespace ChangeDetector

structure JobRow where
  id : ℕ
  companyId : ℕ
  externalId : String
  title : String
  category : Option String
  department : Option String
  location : Option String
  description : Option String
  jobUrl : String
  postingDate : Option String
  discoveredAt : ℕ
  lastSeenAt : ℕ
  isActive : ℕ
  relevanceScore : ℚ
  deriving Repr, DecidableEq

structure JobChangeRow where
  jobId : ℕ
  runId : String
  changeType : String
  deriving Repr, DecidableEq

structure RunSnapshotRow where
  runId : String
  runDate : String
  companyId : ℕ
  jobsFound : ℕ
  newJobs : ℕ
  removedJobs : ℕ
  status : String
  deriving Repr, DecidableEq

structure DBState where
  jobs : List JobRow
  jobChanges : List JobChangeRow
  runSnapshots : List RunSnapshotRow
  nextJobId : ℕ
  deriving Repr, DecidableEq

/-- A job dict fetched from an ATS (the keys `apply_changes` reads). -/
structure FetchedJob where
  externalId : String
  title : String
  matchedCategory : Option String
  department : Option String
  location : Option String
  description : Option String
  jobUrl : String
  postingDate : Option String
  relevanceScore : ℚ
  deriving Repr, DecidableEq

/-- `models.JobChange`. -/
structure JobChange where
  jobId : ℕ
  externalId : String
  title : String
  companyName : String
  changeType : String
  jobUrl : String
  deriving Repr, DecidableEq

/-- `models.ChangeReport`. -/
structure ChangeReport where
  runId : String
  runDate : String
  companyId : ℕ
  companyName : String
  newJobs : List JobChange
  removedJobs : List JobChange
  totalActive : ℕ
  deriving Repr, DecidableEq

inductive SqlError where
  | uniqueViolation
  deriving Repr, DecidableEq

/-- The `WHERE company_id = ? AND is_active = 1` selection, in table order. -/
def activeJobs (s : DBState) (cid : ℕ) : List JobRow :=
  s.jobs.filter (fun r => r.companyId = cid && r.isActive = 1)

/-- Python-dict insertion: overwrite the value in place if the key exists,
else append. -/
def dictInsert (k : String) (v : JobRow) :
    List (String × JobRow) → List (String × JobRow)
  | [] => [(k, v)]
  | (k2, v2) :: t =>
    if k2 = k then (k2, v) :: t else (k2, v2) :: dictInsert k v t

def buildDict : List JobRow → List (String × JobRow) → List (String × JobRow)
  | [], d => d
  | r :: rest, d => buildDict rest (dictInsert r.externalId r d)

/-- `db_jobs = {row.external_id: row for active rows}`. -/
def dbJobsDict (s : DBState) (cid : ℕ) : List (String × JobRow) :=
  buildDict (activeJobs s cid) []

/-- `ChangeDetector.detect_changes`: compare the fetched jobs against the
active rows.  `new_jobs` are fetched jobs whose external id is not an active
db id; `removed_jobs` are active db rows whose external id was not fetched;
`total_active = len(fetched_ids)` counts distinct fetched ids. -/
def detect_changes (runId runDate : String) (companyId : ℕ)
    (companyName : String) (fetchedJobs : List FetchedJob) (s : DBState) :
    ChangeReport :=
  { runId := runId
    runDate := runDate
    companyId := companyId
    companyName := companyName
    newJobs :=
      (fetchedJobs.filter (fun j =>
        !((dbJobsDict s companyId).map Prod.fst).contains j.externalId)).map
        (fun j => ⟨0, j.externalId, j.title, companyName, "new", j.jobUrl⟩)
    removedJobs :=
      ((dbJobsDict s companyId).filter (fun p =>
        !(fetchedJobs.map (fun j => j.externalId)).contains p.1)).map
        (fun p => ⟨p.2.id, p.1, p.2.title, companyName, "removed", p.2.jobUrl⟩)
    totalActive := ((fetchedJobs.map (fun j => j.externalId)).dedup).length }

/-- `jobs_by_ext_id.get(external_id)`: dict comprehension, last entry wins. -/
def lookupFetched (fetchedJobs : List FetchedJob) (ext : String) :
    Option FetchedJob :=
  fetchedJobs.reverse.find? (fun j => j.externalId = ext)

/-- Plain `INSERT INTO jobs ... VALUES (..., 1, ...)`: fails with an
integrity error when a row with the same `(company_id, external_id)` exists. -/
def insertJobsRow (cid now : ℕ) (j : FetchedJob) (s : DBState) :
    Except SqlError (DBState × ℕ) :=
  if s.jobs.any (fun r => r.companyId = cid && r.externalId = j.externalId) then
    .error .uniqueViolation
  else
    .ok ({ s with
            jobs := s.jobs ++ [⟨s.nextJobId, cid, j.externalId, j.title,
              j.matchedCategory, j.department, j.location, j.description,
              j.jobUrl, j.postingDate, now, now, 1, j.relevanceScore⟩]
            nextJobId := s.nextJobId + 1 },
          s.nextJobId)

/-- `INSERT INTO job_changes (job_id, run_id, change_type)`. -/
def recordJobChange (jobId : ℕ) (runId changeType : String) (s : DBState) :
    DBState :=
  { s with jobChanges := s.jobChanges ++ [⟨jobId, runId, changeType⟩] }

/-- The new-jobs loop of `apply_changes`: look each change up in
`jobs_by_ext_id` (skipping misses), insert the row, record the change. -/
def applyNew (cid : ℕ) (runId : String) (now : ℕ)
    (fetchedJobs : List FetchedJob) :
    List JobChange → DBState → Except SqlError DBState
  | [], s => .ok s
  | ch :: rest, s =>
    match lookupFetched fetchedJobs ch.externalId with
    | none => applyNew cid runId now fetchedJobs rest s
    | some j =>
      match insertJobsRow cid now j s with
      | .error e => .error e
      | .ok (s2, jobId) =>
        applyNew cid runId now fetchedJobs rest
          (recordJobChange jobId runId "new" s2)

/-- The row update `UPDATE jobs SET is_active = 0, last_seen_at = ? WHERE
id = ?` applied to a single row. -/
def setInactive (now jobId : ℕ) (r : JobRow) : JobRow :=
  if r.id = jobId then { r with isActive := 0, lastSeenAt := now } else r

/-- `Database.mark_job_inactive` (`database.py`): the same `UPDATE` statement,
over the whole table. -/
def mark_job_inactive (now jobId : ℕ) (s : DBState) : DBState :=
  { s with jobs := s.jobs.map (setInactive now jobId) }

/-- The removed-jobs loop of `apply_changes`: mark each reported row inactive
and record a 'removed' change. -/
def applyRemoved (runId : String) (now : ℕ) :
    List JobChange → DBState → DBState
  | [], s => s
  | ch :: rest, s =>
    applyRemoved runId now rest
      (recordJobChange ch.jobId runId "removed"
        (mark_job_inactive now ch.jobId s))

/-- `UPDATE jobs SET last_seen_at = ? WHERE company_id = ? AND external_id IN
(...)`. -/
def updateLastSeen (cid now : ℕ) (exts : List String) (s : DBState) : DBState :=
  { s with
    jobs := s.jobs.map (fun r =>
      if r.companyId = cid && exts.contains r.externalId then
        { r with lastSeenAt := now }
      else r) }

/-- `active_external_ids`: fetched external ids that are not among the new
changes (step 3 of `apply_changes`). -/
def activeExtIdsOf (report : ChangeReport) (fetchedJobs : List FetchedJob) :
    List String :=
  (fetchedJobs.filter (fun j =>
    !(report.newJobs.map (fun ch => ch.externalId)).contains
      j.externalId)).map (fun j => j.externalId)

/-- `INSERT INTO run_snapshots ...`. -/
def appendSnapshot (snap : RunSnapshotRow) (s : DBState) : DBState :=
  { s with runSnapshots := s.runSnapshots ++ [snap] }

/-- Steps 2–4 of `apply_changes` (run after the new-jobs inserts succeed):
mark removed jobs inactive (recording 'removed' changes), bump `last_seen_at`
for the still-active fetched ids when there are any, and append the run
snapshot. -/
def applyRest (report : ChangeReport) (fetchedJobs : List FetchedJob)
    (now : ℕ) (s1 : DBState) : DBState :=
  appendSnapshot
    ⟨report.runId, report.runDate, report.companyId, report.totalActive,
      report.newJobs.length, report.removedJobs.length, "success"⟩
    (if (activeExtIdsOf report fetchedJobs).isEmpty then
      applyRemoved report.runId now report.removedJobs s1
     else
      updateLastSeen report.companyId now (activeExtIdsOf report fetchedJobs)
        (applyRemoved report.runId now report.removedJobs s1))

/-- `ChangeDetector.apply_changes`: insert new jobs (recording 'new' changes),
then the removed/last-seen/snapshot steps.  The commit happens only at the
end, so an integrity error propagates with the state unchanged. -/
def apply_changes (report : ChangeReport) (fetchedJobs : List FetchedJob)
    (now : ℕ) (s : DBState) : Except SqlError DBState :=
  match applyNew report.companyId report.runId now fetchedJobs
      report.newJobs s with
  | .error e => .error e
  | .ok s1 => .ok (applyRest report fetchedJobs now s1)

/-- Well-formedness maintained by the SQLite schema: primary keys are unique
and below the autoincrement counter, and `UNIQUE(company_id, external_id)`
holds. -/
def WF (s : DBState) : Prop :=
  (∀ r ∈ s.jobs, r.id < s.nextJobId) ∧
  (s.jobs.map (fun r => r.id)).Nodup ∧
  s.jobs.Pairwise (fun r1 r2 =>
    ¬(r1.companyId = r2.companyId ∧ r1.externalId = r2.externalId))

end ChangeDetector

namespace ChangeDetector

theorem recordJobChange_jobs (i : ℕ) (rid ct : String) (s : DBState) :
    (recordJobChange i rid ct s).jobs = s.jobs := rfl

theorem recordJobChange_nextJobId (i : ℕ) (rid ct : String) (s : DBState) :
    (recordJobChange i rid ct s).nextJobId = s.nextJobId := rfl

theorem recordJobChange_runSnapshots (i : ℕ) (rid ct : String) (s : DBState) :
    (recordJobChange i rid ct s).runSnapshots = s.runSnapshots := rfl

theorem lookupFetched_spec {fetchedJobs : List FetchedJob} {e : String}
    {j : FetchedJob} (h : lookupFetched fetchedJobs e = some j) :
    j ∈ fetchedJobs ∧ j.externalId = e := by
  unfold lookupFetched at h
  refine ⟨List.mem_reverse.mp (List.mem_of_find?_eq_some h), ?_⟩
  have hp := List.find?_some h
  exact of_decide_eq_true hp

theorem lookupFetched_isSome {fetchedJobs : List FetchedJob} {e : String}
    (h : e ∈ fetchedJobs.map (fun j => j.externalId)) :
    ∃ j, lookupFetched fetchedJobs e = some j := by
  rcases List.mem_map.mp h with ⟨j, hj, hje⟩
  unfold lookupFetched
  apply Option.isSome_iff_exists.mp
  rw [List.find?_isSome]
  exact ⟨j, List.mem_reverse.mpr hj, by simp [hje]⟩

/-- The cumulative effect of the sequential per-row `UPDATE ... WHERE id = ?`
statements of the removed-jobs loop. -/
def markIds (now : ℕ) (ids : List ℕ) (r : JobRow) : JobRow :=
  if r.id ∈ ids then { r with isActive := 0, lastSeenAt := now } else r

theorem markIds_setInactive (now id0 : ℕ) (ids : List ℕ) (r : JobRow) :
    markIds now ids (setInactive now id0 r) = markIds now (id0 :: ids) r := by
  unfold markIds setInactive
  by_cases h : r.id = id0
  · rw [if_pos h]
    simp [List.mem_cons, h]
  · rw [if_neg h]
    simp [List.mem_cons, h]

theorem applyRemoved_spec (runId : String) (now : ℕ) :
    ∀ (removed : List JobChange) (s : DBState),
    (applyRemoved runId now removed s).jobs =
      s.jobs.map (markIds now (removed.map (fun ch => ch.jobId))) ∧
    (applyRemoved runId now removed s).nextJobId = s.nextJobId ∧
    (applyRemoved runId now removed s).runSnapshots = s.runSnapshots := by
  intro removed
  induction removed with
  | nil =>
    intro s
    refine ⟨?_, rfl, rfl⟩
    show s.jobs = s.jobs.map (markIds now [])
    have h1 : s.jobs.map (markIds now []) = s.jobs.map id :=
      List.map_congr_left (fun r _ => by simp [markIds])
    rw [h1, List.map_id]
  | cons ch rest ih =>
    intro s
    have hstep : applyRemoved runId now (ch :: rest) s =
        applyRemoved runId now rest
          (recordJobChange ch.jobId runId ("removed")
            (mark_job_inactive now ch.jobId s)) := rfl
    rw [hstep]
    rcases ih (recordJobChange ch.jobId runId ("removed")
      (mark_job_inactive now ch.jobId s)) with ⟨hjobs, hnext, hsnap⟩
    refine ⟨?_, by rw [hnext]; rfl, by rw [hsnap]; rfl⟩
    rw [hjobs]
    show (s.jobs.map (setInactive now ch.jobId)).map
        (markIds now (rest.map (fun ch2 => ch2.jobId))) = _
    rw [List.map_map]
    apply List.map_congr_left
    intro r _
    exact markIds_setInactive now ch.jobId (rest.map (fun ch2 => ch2.jobId)) r

theorem updateLastSeen_row_fields (cid now : ℕ) (exts : List String)
    (r : JobRow) :
    ((if r.companyId = cid && exts.contains r.externalId then
        { r with lastSeenAt := now } else r) : JobRow).id = r.id ∧
    ((if r.companyId = cid && exts.contains r.externalId then
        { r with lastSeenAt := now } else r) : JobRow).companyId = r.companyId ∧
    ((if r.companyId = cid && exts.contains r.externalId then
        { r with lastSeenAt := now } else r) : JobRow).externalId = r.externalId ∧
    ((if r.companyId = cid && exts.contains r.externalId then
        { r with lastSeenAt := now } else r) : JobRow).isActive = r.isActive := by
  split <;> exact ⟨rfl, rfl, rfl, rfl⟩

theorem mem_keys_dictInsert (k : String) (v : JobRow)
    (d : List (String × JobRow)) (e : String) :
    (e ∈ (dictInsert k v d).map Prod.fst) ↔ e = k ∨ e ∈ d.map Prod.fst := by
  induction d with
  | nil => simp [dictInsert]
  | cons p t ih =>
    rcases p with ⟨k2, v2⟩
    by_cases h : k2 = k
    · subst h
      simp only [dictInsert, if_true, List.map_cons, List.mem_cons]
      tauto
    · simp only [dictInsert, if_neg h, List.map_cons, List.mem_cons, ih]
      tauto

theorem mem_keys_buildDict :
    ∀ (rows : List JobRow) (d : List (String × JobRow)) (e : String),
    (e ∈ (buildDict rows d).map Prod.fst) ↔
      e ∈ d.map Prod.fst ∨ e ∈ rows.map (fun r => r.externalId) := by
  intro rows
  induction rows with
  | nil => intro d e; simp [buildDict]
  | cons r rest ih =>
    intro d e
    show (e ∈ (buildDict rest (dictInsert r.externalId r d)).map Prod.fst) ↔ _
    rw [ih]
    rw [mem_keys_dictInsert]
    simp [List.mem_cons]
    tauto

theorem mem_buildDict_key {rows : List JobRow} {d : List (String × JobRow)}
    {p : String × JobRow} (h : p ∈ buildDict rows d) :
    p.1 ∈ d.map Prod.fst ∨ p.1 ∈ rows.map (fun r => r.externalId) := by
  have : p.1 ∈ (buildDict rows d).map Prod.fst :=
    List.mem_map.mpr ⟨p, h, rfl⟩
  exact (mem_keys_buildDict rows d p.1).mp this

end ChangeDetector

namespace ChangeDetector

theorem applyNew_ok (cid : ℕ) (runId : String) (now : ℕ)
    (fetchedJobs : List FetchedJob) :
    ∀ (changes : List JobChange) (s s' : DBState),
    applyNew cid runId now fetchedJobs changes s = .ok s' →
    (∃ L : List JobRow, s'.jobs = s.jobs ++ L ∧
      ∀ r ∈ L, r.companyId = cid ∧ r.isActive = 1 ∧ s.nextJobId ≤ r.id ∧
        r.externalId ∈ changes.map (fun ch => ch.externalId)) ∧
    (∀ ch ∈ changes, ch.externalId ∈ fetchedJobs.map (fun j => j.externalId) →
      ∃ r ∈ s'.jobs, r.companyId = cid ∧ r.isActive = 1 ∧
        r.externalId = ch.externalId) ∧
    s.nextJobId ≤ s'.nextJobId ∧
    s'.runSnapshots = s.runSnapshots := by
  intro changes
  induction changes with
  | nil =>
    intro s s' h
    have hs : s = s' := by simpa [applyNew] using h
    subst hs
    exact ⟨⟨[], by simp, by simp⟩, by simp, le_refl _, rfl⟩
  | cons ch rest ih =>
    intro s s' h
    unfold applyNew at h
    split at h
    · -- lookup miss: the change is skipped
      rename_i hl
      obtain ⟨⟨L, hL1, hL2⟩, hex, hnext, hsnap⟩ := ih s s' h
      refine ⟨⟨L, hL1, ?_⟩, ?_, hnext, hsnap⟩
      · intro r hr
        obtain ⟨a, b, c, d⟩ := hL2 r hr
        exact ⟨a, b, c, by rw [List.map_cons]; exact List.mem_cons_of_mem _ d⟩
      · intro ch2 hch2 hfetch
        rcases List.mem_cons.mp hch2 with h1 | h1
        · subst h1
          rcases lookupFetched_isSome hfetch with ⟨j, hj⟩
          rw [hl] at hj
          exact absurd hj (by simp)
        · exact hex ch2 h1 hfetch
    · -- lookup hit: insert the row, record the change, recurse
      rename_i j hl
      by_cases hc : (s.jobs.any (fun r =>
          r.companyId = cid && r.externalId = j.externalId)) = true
      · have hins : insertJobsRow cid now j s = .error .uniqueViolation := by
          unfold insertJobsRow; rw [if_pos hc]
        rw [hins] at h
        exact absurd h (by simp)
      · have hins : insertJobsRow cid now j s =
            .ok ({ s with
              jobs := s.jobs ++ [⟨s.nextJobId, cid, j.externalId, j.title,
                j.matchedCategory, j.department, j.location, j.description,
                j.jobUrl, j.postingDate, now, now, 1, j.relevanceScore⟩]
              nextJobId := s.nextJobId + 1 }, s.nextJobId) := by
          unfold insertJobsRow; rw [if_neg hc]
        rw [hins] at h
        have h2 : applyNew cid runId now fetchedJobs rest
            (recordJobChange s.nextJobId runId ("new")
              { s with
                jobs := s.jobs ++ [⟨s.nextJobId, cid, j.externalId, j.title,
                  j.matchedCategory, j.department, j.location, j.description,
                  j.jobUrl, j.postingDate, now, now, 1, j.relevanceScore⟩]
                nextJobId := s.nextJobId + 1 }) = .ok s' := h
        obtain ⟨⟨L', hL'1, hL'2⟩, hex, hnext, hsnap⟩ :=
          ih (recordJobChange s.nextJobId runId ("new")
            { s with
              jobs := s.jobs ++ [⟨s.nextJobId, cid, j.externalId, j.title,
                j.matchedCategory, j.department, j.location, j.description,
                j.jobUrl, j.postingDate, now, now, 1, j.relevanceScore⟩]
              nextJobId := s.nextJobId + 1 }) s' h2
        have hext : j.externalId = ch.externalId := (lookupFetched_spec hl).2
        have hL1b : s'.jobs = (s.jobs ++ [(⟨s.nextJobId, cid, j.externalId,
            j.title, j.matchedCategory, j.department, j.location,
            j.description, j.jobUrl, j.postingDate, now, now, 1,
            j.relevanceScore⟩ : JobRow)]) ++ L' := hL'1
        refine ⟨⟨(⟨s.nextJobId, cid, j.externalId, j.title,
            j.matchedCategory, j.department, j.location, j.description,
            j.jobUrl, j.postingDate, now, now, 1, j.relevanceScore⟩ :
            JobRow) :: L', ?_, ?_⟩, ?_, ?_, ?_⟩
        · rw [hL1b]
          simp
        · intro r hr
          rcases List.mem_cons.mp hr with h1 | h1
          · subst h1
            refine ⟨rfl, rfl, le_refl _, ?_⟩
            show j.externalId ∈ _
            rw [List.map_cons, hext]
            exact List.mem_cons_self _ _
          · obtain ⟨a, b, c, d⟩ := hL'2 r h1
            have c2 : s.nextJobId + 1 ≤ r.id := c
            refine ⟨a, b, by omega, ?_⟩
            rw [List.map_cons]
            exact List.mem_cons_of_mem _ d
        · intro ch2 hch2 hfetch
          rcases List.mem_cons.mp hch2 with h1 | h1
          · subst h1
            refine ⟨⟨s.nextJobId, cid, j.externalId, j.title,
                j.matchedCategory, j.department, j.location, j.description,
                j.jobUrl, j.postingDate, now, now, 1, j.relevanceScore⟩,
              ?_, rfl, rfl, hext⟩
            rw [hL1b]
            apply List.mem_append_left
            exact List.mem_append_right _ (List.mem_cons_self _ _)
          · exact hex ch2 h1 hfetch
        · have h3 : s.nextJobId + 1 ≤ s'.nextJobId := hnext
          omega
        · exact hsnap

/-- External ids of the active rows of a company, in table order. -/
def activeExts (s : DBState) (cid : ℕ) : List String :=
  (activeJobs s cid).map (fun r => r.externalId)

theorem mem_activeJobs {s : DBState} {cid : ℕ} {r : JobRow} :
    r ∈ activeJobs s cid ↔
      r ∈ s.jobs ∧ r.companyId = cid ∧ r.isActive = 1 := by
  unfold activeJobs
  simp only [List.mem_filter, Bool.and_eq_true, decide_eq_true_eq]

theorem mem_activeExts {s : DBState} {cid : ℕ} {e : String} :
    e ∈ activeExts s cid ↔
      ∃ r ∈ s.jobs, r.companyId = cid ∧ r.isActive = 1 ∧ r.externalId = e := by
  unfold activeExts
  rw [List.mem_map]
  constructor
  · rintro ⟨r, hr, he⟩
    rcases mem_activeJobs.mp hr with ⟨h1, h2, h3⟩
    exact ⟨r, h1, h2, h3, he⟩
  · rintro ⟨r, h1, h2, h3, he⟩
    exact ⟨r, mem_activeJobs.mpr ⟨h1, h2, h3⟩, he⟩

theorem dictInsert_not_mem {k : String} {d : List (String × JobRow)}
    (v : JobRow) (h : k ∉ d.map Prod.fst) :
    dictInsert k v d = d ++ [(k, v)] := by
  induction d with
  | nil => rfl
  | cons p t ih =>
    rcases p with ⟨k2, v2⟩
    have hk : k2 ≠ k := by
      intro he
      exact h (by simp [he])
    show (if k2 = k then _ else _) = _
    rw [if_neg hk]
    rw [ih (by
      intro hmem
      exact h (by simp [hmem]))]
    rfl

theorem buildDict_eq_of_nodup :
    ∀ (rows : List JobRow) (d : List (String × JobRow)),
    (rows.map (fun r => r.externalId)).Nodup →
    (∀ r ∈ rows, r.externalId ∉ d.map Prod.fst) →
    buildDict rows d = d ++ rows.map (fun r => (r.externalId, r)) := by
  intro rows
  induction rows with
  | nil => intro d _ _; simp [buildDict]
  | cons r rest ih =>
    intro d hnd hdisj
    show buildDict rest (dictInsert r.externalId r d) = _
    rw [dictInsert_not_mem r (hdisj r (List.mem_cons_self _ _))]
    rw [List.map_cons] at hnd
    have hnd2 := List.Nodup.of_cons hnd
    have hhead : r.externalId ∉ rest.map (fun r2 => r2.externalId) :=
      (List.nodup_cons.mp hnd).1
    rw [ih (d ++ [(r.externalId, r)]) hnd2 (by
      intro r2 hr2 hmem
      rw [List.map_append, List.mem_append] at hmem
      rcases hmem with hm | hm
      · exact hdisj r2 (List.mem_cons_of_mem _ hr2) hm
      · simp only [List.map_cons, List.map_nil, List.mem_singleton] at hm
        exact hhead (hm ▸ List.mem_map.mpr ⟨r2, hr2, rfl⟩))]
    simp

theorem activeExts_nodup {s : DBState} (hwf : WF s) (cid : ℕ) :
    (activeExts s cid).Nodup := by
  obtain ⟨-, hids, hpair⟩ := hwf
  unfold activeExts
  have hrows : s.jobs.Nodup := List.Nodup.of_map _ hids
  have hactive : (activeJobs s cid).Nodup := hrows.filter _
  have hp2 : (activeJobs s cid).Pairwise (fun r1 r2 =>
      ¬(r1.companyId = r2.companyId ∧ r1.externalId = r2.externalId)) :=
    hpair.sublist (List.filter_sublist _)
  apply List.Nodup.map_on ?_ hactive
  intro x hx y hy hxy
  by_contra hne
  have hsymm : Symmetric (fun r1 r2 : JobRow =>
      ¬(r1.companyId = r2.companyId ∧ r1.externalId = r2.externalId)) := by
    intro a b hab h2
    exact hab ⟨h2.1.symm, h2.2.symm⟩
  have hall := List.Pairwise.forall hsymm hp2
  have hR := hall hx hy hne
  have hcx : x.companyId = cid := (mem_activeJobs.mp hx).2.1
  have hcy : y.companyId = cid := (mem_activeJobs.mp hy).2.1
  exact hR ⟨by rw [hcx, hcy], hxy⟩

end ChangeDetector

namespace ChangeDetector

theorem contains_iff_mem {l : List String} {e : String} :
    l.contains e = true ↔ e ∈ l :=
  List.elem_iff

theorem markIds_isActive_of_mem {now : ℕ} {ids : List ℕ} {r : JobRow}
    (h : r.id ∈ ids) : (markIds now ids r).isActive = 0 := by
  unfold markIds; rw [if_pos h]

theorem markIds_of_not_mem {now : ℕ} {ids : List ℕ} {r : JobRow}
    (h : r.id ∉ ids) : markIds now ids r = r := by
  unfold markIds; rw [if_neg h]

/-- Under the `UNIQUE(company_id, external_id)` invariant the dict of active
rows is just the active-row list keyed by external id, so the removed-jobs
report enumerates exactly the active rows whose id was not fetched. -/
theorem detect_removedJobs_eq {s : DBState} (hwf : WF s)
    (rid rdate cname : String) (cid : ℕ) (fetched : List FetchedJob) :
    (detect_changes rid rdate cid cname fetched s).removedJobs =
      ((activeJobs s cid).filter (fun r =>
        !(fetched.map (fun j => j.externalId)).contains r.externalId)).map
        (fun r => ⟨r.id, r.externalId, r.title, cname, "removed", r.jobUrl⟩) := by
  show ((dbJobsDict s cid).filter _).map _ = _
  unfold dbJobsDict
  rw [buildDict_eq_of_nodup (activeJobs s cid) [] (activeExts_nodup hwf cid)
    (by intro r _ hm; simp at hm)]
  rw [List.nil_append, List.filter_map, List.map_map]
  rfl

theorem mem_keys_dbJobsDict {s : DBState} {cid : ℕ} {e : String} :
    e ∈ (dbJobsDict s cid).map Prod.fst ↔ e ∈ activeExts s cid := by
  unfold dbJobsDict
  rw [mem_keys_buildDict]
  simp [activeExts]

/-- The new-jobs report enumerates exactly the fetched jobs whose external id
is not active in the database. -/
theorem detect_newJobs_eq (rid rdate cname : String) (cid : ℕ)
    (fetched : List FetchedJob) (s : DBState) :
    (detect_changes rid rdate cid cname fetched s).newJobs =
      (fetched.filter (fun j =>
        !((dbJobsDict s cid).map Prod.fst).contains j.externalId)).map
        (fun j => ⟨0, j.externalId, j.title, cname, "new", j.jobUrl⟩) := rfl

theorem mem_newJobs_ext {rid rdate cname : String} {cid : ℕ}
    {fetched : List FetchedJob} {s : DBState} {ch : JobChange}
    (h : ch ∈ (detect_changes rid rdate cid cname fetched s).newJobs) :
    ch.externalId ∈ fetched.map (fun j => j.externalId) := by
  rw [detect_newJobs_eq] at h
  rcases List.mem_map.mp h with ⟨j, hj, hje⟩
  have hjf : j ∈ fetched := List.mem_of_mem_filter hj
  subst hje
  exact List.mem_map.mpr ⟨j, hjf, rfl⟩

theorem newJobs_ext_of_not_active {rid rdate cname : String} {cid : ℕ}
    {fetched : List FetchedJob} {s : DBState} {j : FetchedJob}
    (hj : j ∈ fetched) (hna : j.externalId ∉ activeExts s cid) :
    ∃ ch ∈ (detect_changes rid rdate cid cname fetched s).newJobs,
      ch.externalId = j.externalId := by
  rw [detect_newJobs_eq]
  refine ⟨⟨0, j.externalId, j.title, cname, "new", j.jobUrl⟩, ?_, rfl⟩
  apply List.mem_map.mpr
  refine ⟨j, ?_, rfl⟩
  apply List.mem_filter.mpr
  refine ⟨hj, ?_⟩
  simp only [Bool.not_eq_true']
  rw [← Bool.not_eq_true]
  intro hc
  exact hna (mem_keys_dbJobsDict.mp (contains_iff_mem.mp hc))

theorem activeExts_appendSnapshot (snap : RunSnapshotRow) (s : DBState)
    (cid : ℕ) : activeExts (appendSnapshot snap s) cid = activeExts s cid :=
  rfl

theorem activeExts_map_pres (g : JobRow → JobRow)
    (hg : ∀ r, (g r).companyId = r.companyId ∧ (g r).isActive = r.isActive ∧
      (g r).externalId = r.externalId) (jobs : List JobRow) (cid : ℕ) :
    ((jobs.map g).filter (fun r => r.companyId = cid && r.isActive = 1)).map
        (fun r => r.externalId) =
      (jobs.filter (fun r => r.companyId = cid && r.isActive = 1)).map
        (fun r => r.externalId) := by
  induction jobs with
  | nil => rfl
  | cons r t ih =>
    obtain ⟨h1, h2, h3⟩ := hg r
    simp only [List.map_cons, List.filter_cons, h1, h2]
    split
    · simp only [List.map_cons, h3, ih]
    · exact ih

theorem activeExts_updateLastSeen (cid2 now : ℕ) (exts : List String)
    (s : DBState) (cid : ℕ) :
    activeExts (updateLastSeen cid2 now exts s) cid = activeExts s cid := by
  unfold activeExts activeJobs updateLastSeen
  apply activeExts_map_pres
  intro r
  split <;> exact ⟨rfl, rfl, rfl⟩

theorem activeExts_applyRest (report : ChangeReport)
    (fetched : List FetchedJob) (now : ℕ) (s : DBState) (cid : ℕ) :
    activeExts (applyRest report fetched now s) cid =
      activeExts (applyRemoved report.runId now report.removedJobs s) cid := by
  unfold applyRest
  rw [activeExts_appendSnapshot]
  split
  · rfl
  · rw [activeExts_updateLastSeen]

theorem mem_activeExts_applyRemoved {rid : String} {now : ℕ}
    {removed : List JobChange} {s : DBState} {cid : ℕ} {e : String} :
    e ∈ activeExts (applyRemoved rid now removed s) cid ↔
      ∃ r ∈ s.jobs, r.companyId = cid ∧ r.isActive = 1 ∧
        r.id ∉ removed.map (fun ch => ch.jobId) ∧ r.externalId = e := by
  rcases applyRemoved_spec rid now removed s with ⟨hjobs, -, -⟩
  rw [mem_activeExts]
  constructor
  · rintro ⟨r2, hr2, hcid, hact, hext⟩
    rw [hjobs] at hr2
    rcases List.mem_map.mp hr2 with ⟨r, hr, hr2eq⟩
    subst hr2eq
    by_cases hm : r.id ∈ removed.map (fun ch => ch.jobId)
    · rw [markIds_isActive_of_mem hm] at hact
      exact absurd hact (by simp)
    · rw [markIds_of_not_mem hm] at hcid hact hext
      exact ⟨r, hr, hcid, hact, hm, hext⟩
  · rintro ⟨r, hr, hcid, hact, hm, hext⟩
    refine ⟨markIds now (removed.map (fun ch => ch.jobId)) r, ?_, ?_⟩
    · rw [hjobs]
      exact List.mem_map.mpr ⟨r, hr, rfl⟩
    · rw [markIds_of_not_mem hm]
      exact ⟨hcid, hact, hext⟩

end ChangeDetector

namespace ChangeDetector

theorem jobs_inj_on_id {s : DBState} (hwf : WF s) {r1 r2 : JobRow}
    (h1 : r1 ∈ s.jobs) (h2 : r2 ∈ s.jobs) (hid : r1.id = r2.id) : r1 = r2 :=
  List.inj_on_of_nodup_map hwf.2.1 h1 h2 hid

/-- After a successful `detect_changes` / `apply_changes` round, the active
external ids of the company are exactly the fetched external ids. -/
theorem activeExts_after_apply
    {rid rdate cname : String} {cid now : ℕ} {fetched : List FetchedJob}
    {s0 s1 : DBState} (hwf : WF s0)
    (h : apply_changes (detect_changes rid rdate cid cname fetched s0)
      fetched now s0 = .ok s1) (e : String) :
    e ∈ activeExts s1 cid ↔ e ∈ fetched.map (fun j => j.externalId) := by
  unfold apply_changes at h
  have hproj1 : (detect_changes rid rdate cid cname fetched s0).companyId
      = cid := rfl
  have hproj2 : (detect_changes rid rdate cid cname fetched s0).runId
      = rid := rfl
  rw [hproj1, hproj2] at h
  cases han : applyNew cid rid now fetched
      (detect_changes rid rdate cid cname fetched s0).newJobs s0 with
  | error err =>
    rw [han] at h
    exact absurd h (by simp)
  | ok s1' =>
    rw [han] at h
    have hs1 : applyRest (detect_changes rid rdate cid cname fetched s0)
        fetched now s1' = s1 := by simpa using h
    obtain ⟨⟨L, hL1, hL2⟩, hex, hnext, -⟩ :=
      applyNew_ok cid rid now fetched
        (detect_changes rid rdate cid cname fetched s0).newJobs s0 s1' han
    have hrmIds : (detect_changes rid rdate cid cname fetched
        s0).removedJobs.map (fun ch => ch.jobId) =
        ((activeJobs s0 cid).filter (fun r =>
          !(fetched.map (fun j => j.externalId)).contains
            r.externalId)).map (fun r => r.id) := by
      rw [detect_removedJobs_eq hwf rid rdate cname cid fetched]
      rw [List.map_map]
      rfl
    rw [← hs1, activeExts_applyRest, hproj2, mem_activeExts_applyRemoved]
    constructor
    · rintro ⟨r, hr, hcidr, hact, hnm, hext⟩
      rw [hL1] at hr
      rcases List.mem_append.mp hr with hr0 | hrL
      · by_contra hne
        apply hnm
        rw [hrmIds]
        apply List.mem_map.mpr
        refine ⟨r, ?_, rfl⟩
        apply List.mem_filter.mpr
        refine ⟨mem_activeJobs.mpr ⟨hr0, hcidr, hact⟩, ?_⟩
        have hcf : (fetched.map (fun j => j.externalId)).contains
            r.externalId = false := by
          rw [← Bool.not_eq_true]
          intro hc
          exact hne (hext ▸ contains_iff_mem.mp hc)
        show (!(fetched.map (fun j => j.externalId)).contains r.externalId)
          = true
        rw [hcf]
        rfl
      · obtain ⟨-, -, -, hchs⟩ := hL2 r hrL
        rcases List.mem_map.mp hchs with ⟨ch, hch, hche⟩
        have hmf := mem_newJobs_ext hch
        rw [hche, hext] at hmf
        exact hmf
    · intro hef
      rcases List.mem_map.mp hef with ⟨j, hjf, hje⟩
      by_cases hact0 : e ∈ activeExts s0 cid
      · rcases mem_activeExts.mp hact0 with ⟨r, hr0, hcidr, hactr, hextr⟩
        refine ⟨r, ?_, hcidr, hactr, ?_, hextr⟩
        · rw [hL1]
          exact List.mem_append_left _ hr0
        · intro hmem
          rw [hrmIds] at hmem
          rcases List.mem_map.mp hmem with ⟨r2, hr2, hid2⟩
          have hr2f := List.mem_filter.mp hr2
          have hr2jobs : r2 ∈ s0.jobs := (mem_activeJobs.mp hr2f.1).1
          have heq : r2 = r := jobs_inj_on_id hwf hr2jobs hr0 hid2
          have hnc := hr2f.2
          rw [heq, hextr] at hnc
          have hct : (fetched.map (fun j2 => j2.externalId)).contains e
              = true := contains_iff_mem.mpr hef
          have hnc2 : (!(fetched.map (fun j2 => j2.externalId)).contains e)
              = true := hnc
          rw [hct] at hnc2
          exact absurd hnc2 (by decide)
      · have hnew := @newJobs_ext_of_not_active rid rdate cname _ _ s0 _
          hjf (by rw [hje]; exact hact0)
        rcases hnew with ⟨ch, hch, hche⟩
        have hchf : ch.externalId ∈ fetched.map (fun j2 => j2.externalId) := by
          rw [hche, hje]
          exact hef
        rcases hex ch hch hchf with ⟨r, hrmem, hcidr, hactr, hextr⟩
        refine ⟨r, hrmem, hcidr, hactr, ?_, by rw [hextr, hche, hje]⟩
        intro hmem
        rw [hrmIds] at hmem
        rcases List.mem_map.mp hmem with ⟨r2, hr2, hid2⟩
        have hr2jobs : r2 ∈ s0.jobs :=
          (mem_activeJobs.mp (List.mem_filter.mp hr2).1).1
        rw [hL1] at hrmem
        rcases List.mem_append.mp hrmem with hr0 | hrL
        · refine hact0 (mem_activeExts.mpr ⟨r, hr0, hcidr, hactr, ?_⟩)
          rw [hextr, hche, hje]
        · obtain ⟨-, -, hge, -⟩ := hL2 r hrL
          have hlt := hwf.1 r2 hr2jobs
          omega

end ChangeDetector

/-- C2: running the pipeline twice back-to-back over the same fetched job
sets produces zero `JobChange` rows in the second run: after a successful
first `detect_changes`/`apply_changes` round for a company, the second run's
report has `new_jobs = []` and `removed_jobs = []`, and its apply step
succeeds, writes no `job_changes` rows, and still appends a `run_snapshots`
row with `new_jobs = 0` and `removed_jobs = 0`. -/
theorem claimC2_second_run_idempotent
    (s0 s1 : ChangeDetector.DBState) (cid : ℕ) (cname : String)
    (fetched : List ChangeDetector.FetchedJob)
    (rid1 rdate1 rid2 rdate2 : String) (now1 now2 : ℕ)
    (hwf : ChangeDetector.WF s0)
    (h1 : ChangeDetector.apply_changes
      (ChangeDetector.detect_changes rid1 rdate1 cid cname fetched s0)
      fetched now1 s0 = .ok s1) :
    (ChangeDetector.detect_changes rid2 rdate2 cid cname fetched s1).newJobs
      = [] ∧
    (ChangeDetector.detect_changes rid2 rdate2 cid cname fetched
      s1).removedJobs = [] ∧
    ∃ s2 : ChangeDetector.DBState,
      ChangeDetector.apply_changes
        (ChangeDetector.detect_changes rid2 rdate2 cid cname fetched s1)
        fetched now2 s1 = .ok s2 ∧
      s2.jobChanges = s1.jobChanges ∧
      s2.runSnapshots = s1.runSnapshots ++
        [⟨rid2, rdate2, cid,
          ((fetched.map (fun j => j.externalId)).dedup).length, 0, 0,
          "success"⟩] := by
  have hchar := ChangeDetector.activeExts_after_apply hwf h1
  have hn2 : (ChangeDetector.detect_changes rid2 rdate2 cid cname fetched
      s1).newJobs = [] := by
    rw [ChangeDetector.detect_newJobs_eq]
    have hfil : fetched.filter (fun j =>
        !((ChangeDetector.dbJobsDict s1 cid).map Prod.fst).contains
          j.externalId) = [] := by
      rw [List.filter_eq_nil_iff]
      intro j hj
      have hjm : j.externalId ∈ fetched.map (fun j2 => j2.externalId) :=
        List.mem_map.mpr ⟨j, hj, rfl⟩
      have hact := (hchar j.externalId).mpr hjm
      have hkey : j.externalId ∈
          (ChangeDetector.dbJobsDict s1 cid).map Prod.fst :=
        ChangeDetector.mem_keys_dbJobsDict.mpr hact
      have hct : ((ChangeDetector.dbJobsDict s1 cid).map Prod.fst).contains
          j.externalId = true := ChangeDetector.contains_iff_mem.mpr hkey
      intro habs
      rw [hct] at habs
      exact absurd habs (by decide)
    rw [hfil]
    rfl
  have hr2 : (ChangeDetector.detect_changes rid2 rdate2 cid cname fetched
      s1).removedJobs = [] := by
    show ((ChangeDetector.dbJobsDict s1 cid).filter _).map _ = []
    have hfil : (ChangeDetector.dbJobsDict s1 cid).filter (fun p =>
        !(fetched.map (fun j => j.externalId)).contains p.1) = [] := by
      rw [List.filter_eq_nil_iff]
      intro p hp
      have hp2 : p ∈ ChangeDetector.buildDict
          (ChangeDetector.activeJobs s1 cid) [] := hp
      have hkey := ChangeDetector.mem_buildDict_key hp2
      rcases hkey with hk1 | hk2
      · simp at hk1
      · have hact : p.1 ∈ ChangeDetector.activeExts s1 cid := hk2
        have hf := (hchar p.1).mp hact
        have hct : (fetched.map (fun j => j.externalId)).contains p.1
            = true := ChangeDetector.contains_iff_mem.mpr hf
        intro habs
        rw [hct] at habs
        exact absurd habs (by decide)
    rw [hfil]
    rfl
  refine ⟨hn2, hr2,
    ChangeDetector.applyRest
      (ChangeDetector.detect_changes rid2 rdate2 cid cname fetched s1)
      fetched now2 s1, ?_, ?_, ?_⟩
  · unfold ChangeDetector.apply_changes
    rw [hn2]
    rfl
  · unfold ChangeDetector.applyRest ChangeDetector.appendSnapshot
    rw [hr2]
    split <;> rfl
  · unfold ChangeDetector.applyRest ChangeDetector.appendSnapshot
    rw [hn2, hr2]
    split <;> rfl

/-- Concrete states for the second-run idempotence witness. -/
def c2S0 : ChangeDetector.DBState := ⟨[], [], [], 1⟩

def c2Fetched : List ChangeDetector.FetchedJob :=
  [⟨"j1", "Marketing Manager", some ("general_marketing"), none, none, none,
    "https://jobs.example.com/j1", none, 80⟩]

def c2S1 : ChangeDetector.DBState :=
  ⟨[⟨1, 1, "j1", "Marketing Manager", some ("general_marketing"), none, none,
     none, "https://jobs.example.com/j1", none, 3, 3, 1, 80⟩],
   [⟨1, "r1", "new"⟩],
   [⟨"r1", "d1", 1, 1, 1, 0, "success"⟩],
   2⟩

theorem c2S0_wf : ChangeDetector.WF c2S0 :=
  ⟨fun r hr => absurd hr (List.not_mem_nil r), List.nodup_nil,
   List.Pairwise.nil⟩

theorem c2_first_apply :
    ChangeDetector.apply_changes
      (ChangeDetector.detect_changes ("r1") ("d1") 1 ("Acme") c2Fetched c2S0)
      c2Fetched 3 c2S0 = .ok c2S1 := rfl

/-- Witness for C2 at a concrete one-job company. -/
theorem claimC2_second_run_idempotent_witness :
    ChangeDetector.WF c2S0 ∧
    ChangeDetector.apply_changes
      (ChangeDetector.detect_changes ("r1") ("d1") 1 ("Acme") c2Fetched c2S0)
      c2Fetched 3 c2S0 = .ok c2S1 ∧
    ((ChangeDetector.detect_changes ("r2") ("d2") 1 ("Acme") c2Fetched
        c2S1).newJobs = [] ∧
     (ChangeDetector.detect_changes ("r2") ("d2") 1 ("Acme") c2Fetched
        c2S1).removedJobs = [] ∧
     ∃ s2 : ChangeDetector.DBState,
       ChangeDetector.apply_changes
         (ChangeDetector.detect_changes ("r2") ("d2") 1 ("Acme") c2Fetched c2S1)
         c2Fetched 9 c2S1 = .ok s2 ∧
       s2.jobChanges = c2S1.jobChanges ∧
       s2.runSnapshots = c2S1.runSnapshots ++
         [⟨"r2", "d2", 1,
           ((c2Fetched.map (fun j => j.externalId)).dedup).length, 0, 0,
           "success"⟩]) :=
  ⟨c2S0_wf, c2_first_apply,
   claimC2_second_run_idempotent c2S0 c2S1 1 ("Acme") c2Fetched ("r1") ("d1")
     ("r2") ("d2") 3 9 c2S0_wf c2_first_apply⟩

/-- Concrete state for the reactivation claim: one previously removed job row
(`is_active = 0`) whose external id reappears in the fetched set. -/
def c1State : ChangeDetector.DBState :=
  ⟨[⟨1, 1, "j1", "Brand Manager", some ("brand_marketing"), none, none, none,
     "https://jobs.example.com/j1", none, 0, 2, 0, 80⟩],
   [], [], 2⟩

def c1Fetched : List ChangeDetector.FetchedJob :=
  [⟨"j1", "Brand Manager", some ("brand_marketing"), none, none, none,
    "https://jobs.example.com/j1", none, 80⟩]

/-- C1 (code bug): when a previously removed external id reappears,
`detect_changes` classifies it as 'new' (the db query selects only
`is_active = 1` rows), and `apply_changes` then attempts a plain `INSERT`
that violates `UNIQUE(company_id, external_id)`: the run raises
`sqlite3.IntegrityError` instead of reactivating the row, no `JobChange`
is recorded, and the row stays inactive. -/
theorem claimC1_reactivation_hits_unique_violation :
    (ChangeDetector.detect_changes ("r2") ("d2") 1 ("Acme") c1Fetched
      c1State).newJobs =
      [⟨0, "j1", "Brand Manager", "Acme", "new",
        "https://jobs.example.com/j1"⟩] ∧
    (ChangeDetector.detect_changes ("r2") ("d2") 1 ("Acme") c1Fetched
      c1State).removedJobs = [] ∧
    ChangeDetector.apply_changes
      (ChangeDetector.detect_changes ("r2") ("d2") 1 ("Acme") c1Fetched
        c1State) c1Fetched 5 c1State =
      .error ChangeDetector.SqlError.uniqueViolation ∧
    (c1State.jobs.map (fun r => r.isActive) = [0] ∧ c1State.jobChanges = []) :=
  ⟨rfl, rfl, rfl, rfl, rfl⟩

/-- C10: `mark_job_inactive` (and the identical `UPDATE` in the removed-jobs
branch of `apply_changes`) sets exactly `is_active := 0` and
`last_seen_at := now` on the rows with the given id, leaves every other
column of those rows and every other row unchanged, and touches no other
table; consequently a removed job's `last_seen_at` records the removal time
`now`, not the last time the job was observed in a fetch. -/
theorem claimC10_mark_job_inactive_frame (now jobId : ℕ)
    (s : ChangeDetector.DBState) :
    (ChangeDetector.mark_job_inactive now jobId s).jobs =
      s.jobs.map (ChangeDetector.setInactive now jobId) ∧
    (ChangeDetector.mark_job_inactive now jobId s).jobChanges = s.jobChanges ∧
    (ChangeDetector.mark_job_inactive now jobId s).runSnapshots
      = s.runSnapshots ∧
    (ChangeDetector.mark_job_inactive now jobId s).nextJobId = s.nextJobId ∧
    (∀ r : ChangeDetector.JobRow, r.id = jobId →
      (ChangeDetector.setInactive now jobId r).isActive = 0 ∧
      (ChangeDetector.setInactive now jobId r).lastSeenAt = now ∧
      (ChangeDetector.setInactive now jobId r).id = r.id ∧
      (ChangeDetector.setInactive now jobId r).companyId = r.companyId ∧
      (ChangeDetector.setInactive now jobId r).externalId = r.externalId ∧
      (ChangeDetector.setInactive now jobId r).title = r.title ∧
      (ChangeDetector.setInactive now jobId r).category = r.category ∧
      (ChangeDetector.setInactive now jobId r).department = r.department ∧
      (ChangeDetector.setInactive now jobId r).location = r.location ∧
      (ChangeDetector.setInactive now jobId r).description = r.description ∧
      (ChangeDetector.setInactive now jobId r).jobUrl = r.jobUrl ∧
      (ChangeDetector.setInactive now jobId r).postingDate = r.postingDate ∧
      (ChangeDetector.setInactive now jobId r).discoveredAt = r.discoveredAt ∧
      (ChangeDetector.setInactive now jobId r).relevanceScore
        = r.relevanceScore) ∧
    (∀ r : ChangeDetector.JobRow, r.id ≠ jobId →
      ChangeDetector.setInactive now jobId r = r) ∧
    (∀ runId : String, ∀ ch : ChangeDetector.JobChange,
      ∀ s2 : ChangeDetector.DBState,
      ChangeDetector.applyRemoved runId now [ch] s2 =
        ChangeDetector.recordJobChange ch.jobId runId ("removed")
          (ChangeDetector.mark_job_inactive now ch.jobId s2)) := by
  refine ⟨rfl, rfl, rfl, rfl, ?_, ?_, ?_⟩
  · intro r hr
    unfold ChangeDetector.setInactive
    rw [if_pos hr]
    exact ⟨rfl, rfl, rfl, rfl, rfl, rfl, rfl, rfl, rfl, rfl, rfl, rfl, rfl,
      rfl⟩
  · intro r hr
    unfold ChangeDetector.setInactive
    rw [if_neg hr]
  · intro runId ch s2
    rfl

/-- Witness for C10 at a concrete two-row table. -/
theorem claimC10_mark_job_inactive_frame_witness :
    ((ChangeDetector.mark_job_inactive 7 1 c2S1).jobs =
       c2S1.jobs.map (ChangeDetector.setInactive 7 1) ∧
     (ChangeDetector.mark_job_inactive 7 1 c2S1).jobChanges
       = c2S1.jobChanges ∧
     (ChangeDetector.mark_job_inactive 7 1 c2S1).runSnapshots
       = c2S1.runSnapshots ∧
     (ChangeDetector.mark_job_inactive 7 1 c2S1).nextJobId
       = c2S1.nextJobId) ∧
    ((ChangeDetector.setInactive 7 1
        ⟨1, 1, "j1", "t", none, none, none, none, "u", none, 3, 3, 1,
          80⟩).isActive = 0 ∧
     (ChangeDetector.setInactive 7 1
        ⟨1, 1, "j1", "t", none, none, none, none, "u", none, 3, 3, 1,
          80⟩).lastSeenAt = 7) ∧
    ChangeDetector.setInactive 7 1
        ⟨2, 1, "j2", "t", none, none, none, none, "u", none, 3, 3, 1, 80⟩ =
      ⟨2, 1, "j2", "t", none, none, none, none, "u", none, 3, 3, 1, 80⟩ := by
  have h := claimC10_mark_job_inactive_frame 7 1 c2S1
  refine ⟨⟨h.1, h.2.1, h.2.2.1, h.2.2.2.1⟩, ?_, ?_⟩
  · have h5 := h.2.2.2.2.1
      ⟨1, 1, "j1", "t", none, none, none, none, "u", none, 3, 3, 1, 80⟩ rfl
    exact ⟨h5.1, h5.2.1⟩
  · exact h.2.2.2.2.2.1
      ⟨2, 1, "j2", "t", none, none, none, none, "u", none, 3, 3, 1, 80⟩
      (by decide)

/-!
## `MarketingJobDiscovery/core/caching.py` — `ATSDetectionCache` and
`MarketingJobDiscovery/core/orchestrator.py` —
`JobDiscoveryOrchestrator._detect_ats_for_company`

The `ats_cache` table is a list of rows keyed by `domain` (its PRIMARY KEY;
`set` is an `INSERT OR REPLACE`).  Timestamps are abstract `Nat` clock values
and the TTL (`ttl_days`, default 7) is a `Nat` in the same units.  The
network-side detector (`EnhancedATSDetector.detect` plus its probes) is an
oracle `Unit → ATSDetectionResult × ℕ` returning the detection result and the
number of outbound HTTP calls it performed; the cached branch never invokes
it, which models "zero outbound HTTP calls".  `ATSDetector.detect_with_cache`
(`ats/detector.py`) wraps its detector in the identical get/detect/set
sequence; the orchestrator method is embedded as the representative.
-/

namespace ATSCache

/-- `models.ATSDetectionResult`. -/
structure ATSDetectionResult where
  provider : Option String
  boardToken : Option String
  confidence : ℚ
  detectionMethod : String
  deriving Repr, DecidableEq

structure CacheRow where
  domain : String
  atsProvider : Option String
  boardToken : Option String
  detectedAt : ℕ
  expiresAt : ℕ
  deriving Repr, DecidableEq

/-- `ATSDetectionCache.get`, value part: `None` on miss or expiry
(`datetime.now() > expires`), else the cached provider/token pair. -/
def cacheGet (cache : List CacheRow) (domain : String) (now : ℕ) :
    Option (Option String × Option String) :=
  match cache.find? (fun r => r.domain = domain) with
  | none => none
  | some row =>
    if now > row.expiresAt then none
    else some (row.atsProvider, row.boardToken)

/-- `ATSDetectionCache.get`, state part: an expired row is deleted. -/
def cacheGetState (cache : List CacheRow) (domain : String) (now : ℕ) :
    List CacheRow :=
  match cache.find? (fun r => r.domain = domain) with
  | none => cache
  | some row =>
    if now > row.expiresAt then cache.filter (fun r => r.domain ≠ domain)
    else cache

/-- `ATSDetectionCache.set`: `INSERT OR REPLACE` with
`expires = now + timedelta(days=self.ttl_days)`. -/
def cacheSet (cache : List CacheRow) (domain : String)
    (provider boardToken : Option String) (now ttl : ℕ) : List CacheRow :=
  (cache.filter (fun r => r.domain ≠ domain)) ++
    [⟨domain, provider, boardToken, now, now + ttl⟩]

/-- The cache-miss path: run the detector and cache the result when its
provider is truthy and not "unknown". -/
def detectMissBranch (cache : List CacheRow) (domain : String) (now ttl : ℕ)
    (r : ATSDetectionResult × ℕ) : ATSDetectionResult × ℕ × List CacheRow :=
  if Str.truthyOpt r.1.provider && !(decide (r.1.provider = some "unknown"))
  then
    (r.1, r.2, cacheSet (cacheGetState cache domain now) domain
      r.1.provider r.1.boardToken now ttl)
  else (r.1, r.2, cacheGetState cache domain now)

/-- `JobDiscoveryOrchestrator._detect_ats_for_company`: return the cached
result (confidence 1.0, method "cache", zero HTTP calls) on a hit; otherwise
run the enhanced detector and cache any result whose provider is truthy and
not "unknown" (this includes "linkedin_only").  Returns (result, number of
outbound HTTP calls, new cache state). -/
def detect_ats_for_company (cache : List CacheRow) (domain : String)
    (now ttl : ℕ) (detectOracle : Unit → ATSDetectionResult × ℕ) :
    ATSDetectionResult × ℕ × List CacheRow :=
  match cacheGet cache domain now with
  | some pv => (⟨pv.1, pv.2, 1, "cache"⟩, 0, cacheGetState cache domain now)
  | none => detectMissBranch cache domain now ttl (detectOracle ())

theorem find?_cacheSet (cache : List CacheRow) (domain : String)
    (provider boardToken : Option String) (now ttl : ℕ) :
    (cacheSet cache domain provider boardToken now ttl).find?
        (fun r => r.domain = domain) =
      some ⟨domain, provider, boardToken, now, now + ttl⟩ := by
  unfold cacheSet
  induction cache with
  | nil => simp
  | cons c t ih =>
    by_cases hc : c.domain = domain
    · have h2 : (c :: t).filter (fun r => decide (r.domain ≠ domain)) =
          t.filter (fun r => decide (r.domain ≠ domain)) := by
        simp [List.filter_cons, hc]
      rw [h2]
      exact ih
    · have h2 : (c :: t).filter (fun r => decide (r.domain ≠ domain)) =
          c :: t.filter (fun r => decide (r.domain ≠ domain)) := by
        simp [List.filter_cons, hc]
      rw [h2, List.cons_append, List.find?_cons_of_neg _ (by simp [hc])]
      exact ih

end ATSCache

/-- C5: once a detection for a domain succeeds with provider P and board
token T (any provider other than "unknown", including "linkedin_only") and is
cached at time `t0`, every subsequent `_detect_ats_for_company` call for that
domain at a time `now1` within the TTL returns exactly
`{provider = P, board_token = T, confidence = 1.0, detection_method =
"cache"}`, performs zero outbound HTTP calls (the second oracle is never
consulted, whatever it would do), and leaves the cache unchanged. -/
theorem claimC5_cache_monotonic (cache : List ATSCache.CacheRow)
    (domain : String) (t0 ttl now1 : ℕ)
    (oracle oracle2 : Unit → ATSCache.ATSDetectionResult × ℕ)
    (hmiss : ATSCache.cacheGet cache domain t0 = none)
    (htruthy : Str.truthyOpt ((oracle ()).1).provider = true)
    (hunk : ((oracle ()).1).provider ≠ some "unknown")
    (httl : now1 ≤ t0 + ttl) :
    ATSCache.detect_ats_for_company cache domain t0 ttl oracle =
      ((oracle ()).1, (oracle ()).2,
        ATSCache.cacheSet (ATSCache.cacheGetState cache domain t0) domain
          ((oracle ()).1).provider ((oracle ()).1).boardToken t0 ttl) ∧
    ATSCache.detect_ats_for_company
      (ATSCache.cacheSet (ATSCache.cacheGetState cache domain t0) domain
        ((oracle ()).1).provider ((oracle ()).1).boardToken t0 ttl)
      domain now1 ttl oracle2 =
      (⟨((oracle ()).1).provider, ((oracle ()).1).boardToken, 1, "cache"⟩,
        0,
        ATSCache.cacheSet (ATSCache.cacheGetState cache domain t0) domain
          ((oracle ()).1).provider ((oracle ()).1).boardToken t0 ttl) := by
  constructor
  · have h0 : ATSCache.detect_ats_for_company cache domain t0 ttl oracle =
        ATSCache.detectMissBranch cache domain t0 ttl (oracle ()) := by
      unfold ATSCache.detect_ats_for_company
      rw [hmiss]
    have hcond : (Str.truthyOpt ((oracle ()).1).provider &&
        !(decide (((oracle ()).1).provider = some "unknown"))) = true := by
      rw [htruthy]
      simp [hunk]
    rw [h0]
    unfold ATSCache.detectMissBranch
    rw [if_pos hcond]
  · have hget : ATSCache.cacheGet
        (ATSCache.cacheSet (ATSCache.cacheGetState cache domain t0) domain
          ((oracle ()).1).provider ((oracle ()).1).boardToken t0 ttl)
        domain now1 =
        some (((oracle ()).1).provider, ((oracle ()).1).boardToken) := by
      unfold ATSCache.cacheGet
      rw [ATSCache.find?_cacheSet]
      show (if now1 > t0 + ttl then none
        else some (((oracle ()).1).provider, ((oracle ()).1).boardToken)) = _
      rw [if_neg (by omega)]
    have hgetstate : ATSCache.cacheGetState
        (ATSCache.cacheSet (ATSCache.cacheGetState cache domain t0) domain
          ((oracle ()).1).provider ((oracle ()).1).boardToken t0 ttl)
        domain now1 =
        ATSCache.cacheSet (ATSCache.cacheGetState cache domain t0) domain
          ((oracle ()).1).provider ((oracle ()).1).boardToken t0 ttl := by
      unfold ATSCache.cacheGetState
      rw [ATSCache.find?_cacheSet]
      show (if now1 > t0 + ttl then
          (ATSCache.cacheSet (ATSCache.cacheGetState cache domain t0) domain
            ((oracle ()).1).provider ((oracle ()).1).boardToken t0
            ttl).filter (fun r => r.domain ≠ domain)
        else ATSCache.cacheSet (ATSCache.cacheGetState cache domain t0) domain
          ((oracle ()).1).provider ((oracle ()).1).boardToken t0 ttl) = _
      rw [if_neg (by omega)]
      rfl
    unfold ATSCache.detect_ats_for_company
    rw [hget, hgetstate]

/-- Witness for C5: an empty cache, an oracle detecting greenhouse with token
"acme" in 3 HTTP calls, and a second call 5 time units later within a TTL of
7. -/
theorem claimC5_cache_monotonic_witness :
    ATSCache.cacheGet [] ("acme.com") 0 = none ∧
    Str.truthyOpt
      ((((fun _ => (⟨some ("greenhouse"), some ("acme"), 95/100, "api_probe"⟩,
        3)) : Unit → ATSCache.ATSDetectionResult × ℕ) ()).1).provider
      = true ∧
    ((((fun _ => (⟨some ("greenhouse"), some ("acme"), 95/100, "api_probe"⟩,
      3)) : Unit → ATSCache.ATSDetectionResult × ℕ) ()).1).provider
      ≠ some ("unknown") ∧
    (5 : ℕ) ≤ 0 + 7 ∧
    ATSCache.detect_ats_for_company
      (ATSCache.cacheSet (ATSCache.cacheGetState [] ("acme.com") 0)
        ("acme.com") (some ("greenhouse")) (some ("acme")) 0 7)
      ("acme.com") 5 7
      (fun _ => (⟨none, none, 0, "api_probe"⟩, 9)) =
      (⟨some ("greenhouse"), some ("acme"), 1, "cache"⟩, 0,
        ATSCache.cacheSet (ATSCache.cacheGetState [] ("acme.com") 0)
          ("acme.com") (some ("greenhouse")) (some ("acme")) 0 7) := by
  refine ⟨rfl, rfl, by decide, by decide, ?_⟩
  exact (claimC5_cache_monotonic [] ("acme.com") 0 7 5
    (fun _ => (⟨some ("greenhouse"), some ("acme"), 95/100, "api_probe"⟩, 3))
    (fun _ => (⟨none, none, 0, "api_probe"⟩, 9))
    rfl rfl (by decide) (by decide)).2

/-!
## `MarketingJobDiscovery/core/orchestrator.py` —
`JobDiscoveryOrchestrator.run` (the `max_jobs` budget loop)

The per-company pipeline is abstracted to its observable outcome (status and
`jobs_found`); the loop breaks before admitting a company once
`total_jobs_processed >= max_jobs`, and adds `jobs_found` to the running
total only for companies whose result status is "success".
-/

namespace Orchestrator

structure CompanyResult where
  status : String
  jobsFound : ℕ
  deriving Repr, DecidableEq

/-- The `for` loop of `run`: break when the running total has reached
`max_jobs`, otherwise process the company and accumulate its `jobs_found` on
success.  Returns the final total and the list of companies admitted. -/
def runLoop (maxJobs : ℕ) : List CompanyResult → ℕ → ℕ × List CompanyResult
  | [], total => (total, [])
  | c :: rest, total =>
    if total ≥ maxJobs then (total, [])
    else
      ((runLoop maxJobs rest
          (if c.status = "success" then total + c.jobsFound else total)).1,
       c :: (runLoop maxJobs rest
          (if c.status = "success" then total + c.jobsFound else total)).2)

/-- `JobDiscoveryOrchestrator.run`, starting from `total_jobs_processed = 0`. -/
def run (maxJobs : ℕ) (companies : List CompanyResult) :
    ℕ × List CompanyResult :=
  runLoop maxJobs companies 0

theorem runLoop_le (maxJobs B : ℕ) :
    ∀ (cs : List CompanyResult) (total : ℕ),
    (∀ c ∈ cs, c.jobsFound ≤ B) → total ≤ maxJobs - 1 + B →
    (runLoop maxJobs cs total).1 ≤ maxJobs - 1 + B := by
  intro cs
  induction cs with
  | nil => intro total _ ht; exact ht
  | cons c rest ih =>
    intro total hb ht
    show (if total ≥ maxJobs then (total, ([] : List CompanyResult))
      else _).1 ≤ _
    split
    · exact ht
    · rename_i hlt
      have hc := hb c (List.mem_cons_self _ _)
      apply ih
      · intro c2 hc2
        exact hb c2 (List.mem_cons_of_mem _ hc2)
      · split
        · omega
        · exact ht

end Orchestrator

/-- C6 (counterexample): the budget check only guards admission; the last
admitted company may push the cumulative total past `max_jobs`.  With
`max_jobs = 1` and a single company contributing 2 relevant jobs, the final
total is 2 > 1. -/
theorem claimC6_counterexample :
    (Orchestrator.run 1 [⟨"success", 2⟩]).1 = 2 ∧
    ¬ ((Orchestrator.run 1 [⟨"success", 2⟩]).1 ≤ 1) := by
  refine ⟨rfl, ?_⟩
  intro h
  have h2 : (Orchestrator.run 1 [⟨"success", 2⟩]).1 = 2 := rfl
  omega

/-- C6 (amended): once the running total reaches or crosses `max_jobs` no
further company is admitted (the loop breaks immediately), and when every
company contributes at most `B` relevant jobs the final total is at most
`max_jobs - 1 + B` — it can overshoot `max_jobs` by at most the last admitted
company's contribution, so the claimed bound `total ≤ max_jobs` does not
hold in general. -/
theorem claimC6_budget_bound (maxJobs B : ℕ)
    (companies : List Orchestrator.CompanyResult)
    (h : ∀ c ∈ companies, c.jobsFound ≤ B) :
    (Orchestrator.run maxJobs companies).1 ≤ maxJobs - 1 + B ∧
    (∀ (cs : List Orchestrator.CompanyResult) (total : ℕ), total ≥ maxJobs →
      Orchestrator.runLoop maxJobs cs total = (total, [])) := by
  constructor
  · exact Orchestrator.runLoop_le maxJobs B companies 0 h (by omega)
  · intro cs total htot
    cases cs with
    | nil => rfl
    | cons c rest =>
      show (if total ≥ maxJobs then (total, ([] : List _)) else _) = _
      rw [if_pos htot]

/-- Witness for C6's amended theorem: `max_jobs = 5`, two companies with at
most 3 jobs each; the loop output is bounded by `5 - 1 + 3`. -/
theorem claimC6_budget_bound_witness :
    (∀ c ∈ ([⟨"success", 3⟩, ⟨"success", 2⟩] :
        List Orchestrator.CompanyResult), c.jobsFound ≤ 3) ∧
    ((Orchestrator.run 5 [⟨"success", 3⟩, ⟨"success", 2⟩]).1 ≤ 5 - 1 + 3 ∧
     (∀ (cs : List Orchestrator.CompanyResult) (total : ℕ), total ≥ 5 →
       Orchestrator.runLoop 5 cs total = (total, []))) :=
  ⟨by decide,
   claimC6_budget_bound 5 3 [⟨"success", 3⟩, ⟨"success", 2⟩] (by decide)⟩

namespace Str

theorem isPrefixList_iff : ∀ (a b : List Char),
    isPrefixList a b = true ↔ ∃ t, b = a ++ t := by
  intro a
  induction a with
  | nil =>
    intro b
    simp [isPrefixList]
  | cons x xs ih =>
    intro b
    cases b with
    | nil =>
      simp [isPrefixList]
    | cons y ys =>
      show (decide (x = y) && isPrefixList xs ys) = true ↔ _
      rw [Bool.and_eq_true, decide_eq_true_eq, ih ys]
      constructor
      · rintro ⟨hxy, t, ht⟩
        exact ⟨t, by rw [hxy, ht]; rfl⟩
      · rintro ⟨t, ht⟩
        rw [List.cons_append] at ht
        injection ht with h1 h2
        exact ⟨h1.symm, t, h2⟩

theorem infixList_iff : ∀ (hay sub : List Char),
    infixList sub hay = true ↔ ∃ pre post, hay = pre ++ sub ++ post := by
  intro hay
  induction hay with
  | nil =>
    intro sub
    show sub.isEmpty = true ↔ _
    cases sub with
    | nil => simp
    | cons x xs => simp
  | cons h t ih =>
    intro sub
    show (isPrefixList sub (h :: t) || infixList sub t) = true ↔ _
    rw [Bool.or_eq_true, isPrefixList_iff, ih]
    constructor
    · rintro (⟨t2, ht2⟩ | ⟨pre, post, hpp⟩)
      · exact ⟨[], t2, by simpa using ht2⟩
      · exact ⟨h :: pre, post, by rw [hpp]; rfl⟩
    · rintro ⟨pre, post, hpp⟩
      cases pre with
      | nil =>
        exact Or.inl ⟨post, by simpa using hpp⟩
      | cons p ps =>
        rw [List.cons_append, List.cons_append] at hpp
        injection hpp with h1 h2
        exact Or.inr ⟨ps, post, by rw [h2]⟩

theorem containsStr_trans {a b c : String}
    (h1 : containsStr b a = true) (h2 : containsStr c b = true) :
    containsStr c a = true := by
  unfold containsStr at h1 h2 ⊢
  rw [infixList_iff] at h1 h2 ⊢
  rcases h1 with ⟨p1, q1, hb⟩
  rcases h2 with ⟨p2, q2, hc⟩
  exact ⟨p2 ++ p1, q1 ++ q2, by rw [hc, hb]; simp⟩

theorem containsStr_lower {hay sub : String}
    (h : containsStr hay sub = true) :
    containsStr (lower hay) (lower sub) = true := by
  unfold containsStr at h ⊢
  rw [infixList_iff] at h
  rcases h with ⟨pre, post, hh⟩
  unfold lower
  show infixList (sub.data.map Char.toLower) (hay.data.map Char.toLower) = true
  rw [infixList_iff]
  exact ⟨pre.map Char.toLower, post.map Char.toLower, by rw [hh]; simp⟩

end Str

/-!
## `ITMSPDiscovery/core/decision_maker.py` —
`ITDecisionMakerFinder._parse_response` and the decision-maker persistence
step of `MarketingJobDiscovery/core/orchestrator.py` (`run`, dry-run off)
with `Database.upsert_decision_maker`
(`MarketingListDiscovery/core/database.py`)

`_try_parse_json` is abstracted as an `Option (List Entry)` input (an `Entry`
is one parsed JSON object; its `employee_count` int-coercion is abstracted as
an already-parsed `Option Int`).  The regex fallback's pattern matches are
oracles: `blockOf` yields the text block matched for a company, and
`personOf`/`titleOf`/`urlOf`/`confOf` the (stripped) capture groups inside
the block — a regex capture is always a substring of the searched block,
which is the only property the theorems assume about them.
`results_by_company` is a Python dict: an association list with in-place
value update and append-on-new-key.
-/

namespace DecisionMaker

def VALID_INDUSTRIES : List String :=
  ["Healthcare", "Legal", "Financial Services", "Manufacturing",
   "Professional Services", "Construction", "Real Estate",
   "Retail / E-commerce", "Education", "Nonprofits",
   "Food & Beverage", "Other"]

/-- `models.DecisionMakerResult` (ITMSPDiscovery). -/
structure DecisionMakerResult where
  companyName : String
  personName : Option String
  title : Option String
  sourceUrl : Option String
  confidence : Option String
  employeeCount : Option Int
  industry : Option String
  notFoundReason : Option String
  rawText : Option String
  deriving Repr, DecidableEq

/-- One object of the JSON array Gemini returns, after `_try_parse_json`:
`entry.get("company_name", "")`, `entry.get("person_name", "")` etc. -/
structure Entry where
  companyName : String
  personName : String
  title : Option String
  sourceUrl : Option String
  confidence : Option String
  employeeCount : Option Int
  industry : Option String
  reason : Option String
  raw : String
  deriving Repr, DecidableEq

/-- `_match_company_name`: exact lowercase match or either-way substring
containment against the batch names (the Python `candidates` set is taken in
a fixed order; only which name matches is relied upon). -/
def match_company_name (name : String) (candidates : List String) :
    Option String :=
  if !Str.truthy name then none
  else
    candidates.find? (fun c =>
      Str.lower c = Str.trim (Str.lower name) ||
      Str.containsStr (Str.lower c) (Str.trim (Str.lower name)) ||
      Str.containsStr (Str.trim (Str.lower name)) (Str.lower c))

/-- `if industry and industry not in VALID_INDUSTRIES: industry = "Other"`. -/
def normIndustry (i : Option String) : Option String :=
  match i with
  | none => none
  | some s =>
    if Str.truthy s && !(VALID_INDUSTRIES.contains s) then some ("Other")
    else some s

/-- Conversion of one JSON entry into a keyed result: the
"not confidently" sentinel becomes a `not_found_reason`-only result with
`person_name` absent; otherwise `person_name = person or None`. -/
def parseEntry (batchNames : List String) (e : Entry) :
    Option (String × DecisionMakerResult) :=
  match match_company_name e.companyName batchNames with
  | none => none
  | some matched =>
    if Str.truthy e.personName &&
        Str.containsStr (Str.lower e.personName) ("not confidently") then
      some (matched,
        ⟨matched, none, none, none, none, none, none,
         some (e.reason.getD e.personName), some e.raw⟩)
    else
      some (matched,
        ⟨matched,
         (if Str.truthy e.personName then some e.personName else none),
         e.title, e.sourceUrl, e.confidence, e.employeeCount,
         normIndustry e.industry, none, some e.raw⟩)

/-- Python-dict insertion for `results_by_company`. -/
def dmDictInsert (k : String) (v : DecisionMakerResult) :
    List (String × DecisionMakerResult) → List (String × DecisionMakerResult)
  | [] => [(k, v)]
  | (k2, v2) :: t =>
    if k2 = k then (k2, v) :: t else (k2, v2) :: dmDictInsert k v t

/-- The JSON-branch loop over parsed entries. -/
def parseEntries (batchNames : List String) :
    List Entry → List (String × DecisionMakerResult) →
    List (String × DecisionMakerResult)
  | [], acc => acc
  | e :: rest, acc =>
    match parseEntry batchNames e with
    | none => parseEntries batchNames rest acc
    | some kv => parseEntries batchNames rest (dmDictInsert kv.1 kv.2 acc)

/-- `_regex_parse`: for each company, extract its block (oracle `blockOf`);
a block containing "not confidently" becomes a `not_found_reason` result,
otherwise the capture oracles provide the fields. -/
def regex_parse (blockOf : String → Option String)
    (personOf titleOf urlOf confOf : String → Option String)
    (companyNames : List String) : List (String × DecisionMakerResult) :=
  companyNames.filterMap (fun cname =>
    match blockOf cname with
    | none => none
    | some block =>
      if Str.containsStr (Str.lower block) ("not confidently") then
        some (cname,
          ⟨cname, none, none, none, none, none, none,
           some ⟨block.data.take 200⟩, some block⟩)
      else
        some (cname,
          ⟨cname, personOf block, titleOf block, urlOf block, confOf block,
           none, none, none, some block⟩))

/-- The final fill-in loop: every batch company without a result gets a
"Not found in Gemini response" record, then the dict values are returned. -/
def parse_response (parsed : Option (List Entry))
    (blockOf personOf titleOf urlOf confOf : String → Option String)
    (rawText : String) (batch : List String) : List DecisionMakerResult :=
  (batch.foldl (fun (d : List (String × DecisionMakerResult)) cname =>
    if (d.map Prod.fst).contains cname then d
    else d ++ [(cname,
      ⟨cname, none, none, none, none, none, none,
       some ("Not found in Gemini response"), some ⟨rawText.data.take 500⟩⟩)])
    (match parsed with
     | some entries => parseEntries batch entries []
     | none =>
       regex_parse blockOf personOf titleOf urlOf confOf batch)).map Prod.snd

/-- A `decision_makers` row
(schema plus the email/linkedin migration columns). -/
structure DecisionMakerRow where
  companyId : ℕ
  personName : String
  title : Option String
  sourceUrl : Option String
  confidence : Option String
  email : Option String
  linkedinUrl : Option String
  deriving Repr, DecidableEq

/-- `Database.upsert_decision_maker`: insert, or on `company_id` conflict
replace the row's fields. -/
def upsert_decision_maker (row : DecisionMakerRow) :
    List DecisionMakerRow → List DecisionMakerRow
  | [] => [row]
  | r :: t =>
    if r.companyId = row.companyId then row :: t
    else r :: upsert_decision_maker row t

/-- The orchestrator persistence loop (dry-run off): results with a falsy
`person_name` are skipped, results whose company has no id in this run are
skipped, the rest are upserted. -/
def persistDecisionMakers (companyIdOf : String → Option ℕ)
    (dmResults : List DecisionMakerResult) (db : List DecisionMakerRow) :
    List DecisionMakerRow :=
  dmResults.foldl (fun d dm =>
    match dm.personName with
    | none => d
    | some p =>
      if !Str.truthy p then d
      else
        match companyIdOf dm.companyName with
        | none => d
        | some cid =>
          upsert_decision_maker
            ⟨cid, p, dm.title, dm.sourceUrl, dm.confidence, none, none⟩ d)
    db

/-- A person name is acceptable when its lowercasing does not contain
"not confidently" — in particular it is never the literal
"Not confidently identifiable". -/
def PersonNameOK (p : String) : Prop :=
  Str.containsStr (Str.lower p) ("not confidently") = false

end DecisionMaker

namespace DecisionMaker

/-- All person names a parse result may carry are sentinel-free. -/
def ResOK (res : DecisionMakerResult) : Prop :=
  ∀ p : String, res.personName = some p → PersonNameOK p

theorem parseEntry_ok {batchNames : List String} {e : Entry}
    {kv : String × DecisionMakerResult}
    (h : parseEntry batchNames e = some kv) : ResOK kv.2 := by
  unfold parseEntry at h
  cases hm : match_company_name e.companyName batchNames with
  | none => rw [hm] at h; exact absurd h (by simp)
  | some matched =>
    rw [hm] at h
    have h1 : (if (Str.truthy e.personName &&
        Str.containsStr (Str.lower e.personName) ("not confidently")) = true
      then
        some (matched,
          (⟨matched, none, none, none, none, none, none,
           some (e.reason.getD e.personName), some e.raw⟩ :
           DecisionMakerResult))
      else
        some (matched,
          (⟨matched,
           (if Str.truthy e.personName then some e.personName else none),
           e.title, e.sourceUrl, e.confidence, e.employeeCount,
           normIndustry e.industry, none, some e.raw⟩ :
           DecisionMakerResult))) = some kv := h
    by_cases hcond : (Str.truthy e.personName &&
        Str.containsStr (Str.lower e.personName) ("not confidently")) = true
    · rw [if_pos hcond] at h1
      injection h1 with h2
      subst h2
      intro p hp
      exact absurd hp (by simp)
    · rw [if_neg hcond] at h1
      injection h1 with h2
      subst h2
      intro p hp
      simp only at hp
      by_cases ht : Str.truthy e.personName = true
      · rw [if_pos ht] at hp
        injection hp with hp2
        subst hp2
        unfold PersonNameOK
        rw [Bool.and_eq_true] at hcond
        push_neg at hcond
        have hnc := hcond ht
        cases hcc : Str.containsStr (Str.lower e.personName)
            ("not confidently") with
        | false => rfl
        | true => exact absurd hcc hnc
      · rw [if_neg ht] at hp
        exact absurd hp (by simp)

theorem dmDictInsert_ok {k : String} {v : DecisionMakerResult}
    (hv : ResOK v) :
    ∀ d : List (String × DecisionMakerResult),
    (∀ kv ∈ d, ResOK kv.2) →
    ∀ kv ∈ dmDictInsert k v d, ResOK kv.2 := by
  intro d
  induction d with
  | nil =>
    intro _ kv hkv
    have h := List.mem_singleton.mp hkv
    rw [h]
    exact hv
  | cons p t ih =>
    intro hall kv hkv
    rcases p with ⟨k2, v2⟩
    rw [show dmDictInsert k v ((k2, v2) :: t) =
      if k2 = k then (k2, v) :: t
      else (k2, v2) :: dmDictInsert k v t from rfl] at hkv
    split at hkv
    · rcases List.mem_cons.mp hkv with h | h
      · rw [h]; exact hv
      · exact hall kv (List.mem_cons_of_mem _ h)
    · rcases List.mem_cons.mp hkv with h | h
      · rw [h]
        exact hall (k2, v2) (List.mem_cons_self _ _)
      · exact ih (fun kv2 hkv2 => hall kv2 (List.mem_cons_of_mem _ hkv2)) kv h

theorem parseEntries_ok {batchNames : List String} :
    ∀ (entries : List Entry) (acc : List (String × DecisionMakerResult)),
    (∀ kv ∈ acc, ResOK kv.2) →
    ∀ kv ∈ parseEntries batchNames entries acc, ResOK kv.2 := by
  intro entries
  induction entries with
  | nil => intro acc hacc kv hkv; exact hacc kv hkv
  | cons e rest ih =>
    intro acc hacc kv hkv
    rw [show parseEntries batchNames (e :: rest) acc =
      (match parseEntry batchNames e with
       | none => parseEntries batchNames rest acc
       | some kv2 => parseEntries batchNames rest
           (dmDictInsert kv2.1 kv2.2 acc)) from rfl] at hkv
    cases hpe : parseEntry batchNames e with
    | none =>
      rw [hpe] at hkv
      exact ih acc hacc kv hkv
    | some kv2 =>
      rw [hpe] at hkv
      exact ih (dmDictInsert kv2.1 kv2.2 acc)
        (dmDictInsert_ok (parseEntry_ok hpe) acc hacc) kv hkv

theorem regex_parse_ok {blockOf personOf titleOf urlOf confOf :
    String → Option String} {companyNames : List String}
    (hcap : ∀ block p, personOf block = some p →
      Str.containsStr block p = true) :
    ∀ kv ∈ regex_parse blockOf personOf titleOf urlOf confOf companyNames,
    ResOK kv.2 := by
  intro kv hkv
  unfold regex_parse at hkv
  rcases List.mem_filterMap.mp hkv with ⟨cname, -, hcv⟩
  cases hb : blockOf cname with
  | none => rw [hb] at hcv; exact absurd hcv (by simp)
  | some block =>
    rw [hb] at hcv
    have hcv2 : (if Str.containsStr (Str.lower block) ("not confidently")
        = true then
        some (cname,
          (⟨cname, none, none, none, none, none, none,
           some ⟨block.data.take 200⟩, some block⟩ : DecisionMakerResult))
      else
        some (cname,
          (⟨cname, personOf block, titleOf block, urlOf block, confOf block,
           none, none, none, some block⟩ : DecisionMakerResult))) =
        some kv := hcv
    by_cases hsent : Str.containsStr (Str.lower block) ("not confidently")
        = true
    · rw [if_pos hsent] at hcv2
      injection hcv2 with h2
      subst h2
      intro p hp
      exact absurd hp (by simp)
    · rw [if_neg hsent] at hcv2
      injection hcv2 with h2
      subst h2
      intro p hp
      simp only at hp
      have hsub := hcap block p hp
      unfold PersonNameOK
      cases hcc : Str.containsStr (Str.lower p) ("not confidently") with
      | false => rfl
      | true =>
        have hlow := Str.containsStr_lower hsub
        exact absurd (Str.containsStr_trans hcc hlow) hsent

theorem fill_fold_ok (rawText : String) :
    ∀ (batch : List String) (d : List (String × DecisionMakerResult)),
    (∀ kv ∈ d, ResOK kv.2) →
    ∀ kv ∈ batch.foldl (fun (d2 : List (String × DecisionMakerResult))
        cname =>
      if (d2.map Prod.fst).contains cname then d2
      else d2 ++ [(cname,
        ⟨cname, none, none, none, none, none, none,
         some ("Not found in Gemini response"),
         some ⟨rawText.data.take 500⟩⟩)]) d,
    ResOK kv.2 := by
  intro batch
  induction batch with
  | nil => intro d hd kv hkv; exact hd kv hkv
  | cons cname rest ih =>
    intro d hd kv hkv
    rw [List.foldl_cons] at hkv
    apply ih _ ?_ kv hkv
    intro kv2 hkv2
    split at hkv2
    · exact hd kv2 hkv2
    · rcases List.mem_append.mp hkv2 with h | h
      · exact hd kv2 h
      · have h2 := List.mem_singleton.mp h
        rw [h2]
        intro p hp
        exact absurd hp (by simp)

theorem parse_response_ok {parsed : Option (List Entry)}
    {blockOf personOf titleOf urlOf confOf : String → Option String}
    {rawText : String} {batch : List String}
    (hcap : ∀ block p, personOf block = some p →
      Str.containsStr block p = true) :
    ∀ res ∈ parse_response parsed blockOf personOf titleOf urlOf confOf
      rawText batch, ResOK res := by
  intro res hres
  unfold parse_response at hres
  rcases List.mem_map.mp hres with ⟨kv, hkv, hkve⟩
  subst hkve
  apply fill_fold_ok rawText batch _ ?_ kv hkv
  cases parsed with
  | some entries =>
    intro kv2 hkv2
    exact parseEntries_ok entries [] (by intro kv3 hkv3; simp at hkv3) kv2 hkv2
  | none =>
    intro kv2 hkv2
    exact regex_parse_ok hcap kv2 hkv2

/-- The row-level invariant of the claim. -/
def RowOK (row : DecisionMakerRow) : Prop :=
  Str.truthy row.personName = true ∧
  row.personName ≠ "Not confidently identifiable"

theorem upsert_ok {row : DecisionMakerRow} (hrow : RowOK row) :
    ∀ db : List DecisionMakerRow, (∀ r ∈ db, RowOK r) →
    ∀ r ∈ upsert_decision_maker row db, RowOK r := by
  intro db
  induction db with
  | nil =>
    intro _ r hr
    have h := List.mem_singleton.mp hr
    rw [h]
    exact hrow
  | cons r2 t ih =>
    intro hall r hr
    rw [show upsert_decision_maker row (r2 :: t) =
      if r2.companyId = row.companyId then row :: t
      else r2 :: upsert_decision_maker row t from rfl] at hr
    split at hr
    · rcases List.mem_cons.mp hr with h | h
      · rw [h]; exact hrow
      · exact hall r (List.mem_cons_of_mem _ h)
    · rcases List.mem_cons.mp hr with h | h
      · rw [h]
        exact hall r2 (List.mem_cons_self _ _)
      · exact ih (fun r3 hr3 => hall r3 (List.mem_cons_of_mem _ hr3)) r h

theorem sentinel_not_ok :
    Str.containsStr (Str.lower ("Not confidently identifiable"))
      ("not confidently") = true := by decide

theorem persist_ok {companyIdOf : String → Option ℕ} :
    ∀ (results : List DecisionMakerResult) (db : List DecisionMakerRow),
    (∀ res ∈ results, ResOK res) → (∀ r ∈ db, RowOK r) →
    ∀ r ∈ persistDecisionMakers companyIdOf results db, RowOK r := by
  intro results
  induction results with
  | nil => intro db _ hdb r hr; exact hdb r hr
  | cons dm rest ih =>
    intro db hres hdb r hr
    unfold persistDecisionMakers at hr
    rw [List.foldl_cons] at hr
    have hrestok : ∀ res ∈ rest, ResOK res :=
      fun res h2 => hres res (List.mem_cons_of_mem _ h2)
    have hstep : ∀ db2 : List DecisionMakerRow, (∀ r2 ∈ db2, RowOK r2) →
        ∀ r2 ∈ (match dm.personName with
          | none => db2
          | some p =>
            if !Str.truthy p then db2
            else
              match companyIdOf dm.companyName with
              | none => db2
              | some cid =>
                upsert_decision_maker
                  ⟨cid, p, dm.title, dm.sourceUrl, dm.confidence, none,
                    none⟩ db2), RowOK r2 := by
      intro db2 hdb2 r2 hr2
      cases hpn : dm.personName with
      | none => rw [hpn] at hr2; exact hdb2 r2 hr2
      | some p =>
        rw [hpn] at hr2
        have hr2b : r2 ∈ (if (!Str.truthy p) = true then db2
          else
            match companyIdOf dm.companyName with
            | none => db2
            | some cid =>
              upsert_decision_maker
                ⟨cid, p, dm.title, dm.sourceUrl, dm.confidence, none, none⟩
                db2) := hr2
        by_cases ht : Str.truthy p = true
        · rw [if_neg (by simp [ht])] at hr2b
          cases hcid : companyIdOf dm.companyName with
          | none =>
            rw [hcid] at hr2b
            exact hdb2 r2 hr2b
          | some cid =>
            rw [hcid] at hr2b
            have hr2c : r2 ∈ upsert_decision_maker
                ⟨cid, p, dm.title, dm.sourceUrl, dm.confidence, none, none⟩
                db2 := hr2b
            have hok : PersonNameOK p :=
              hres dm (List.mem_cons_self _ _) p hpn
            apply upsert_ok ?_ db2 hdb2 r2 hr2c
            refine ⟨ht, ?_⟩
            intro habs
            have habs2 : p = "Not confidently identifiable" := habs
            have hsl : Str.containsStr (Str.lower p) ("not confidently")
                = true := by
              rw [habs2]
              exact sentinel_not_ok
            have hok2 : Str.containsStr (Str.lower p) ("not confidently")
                = false := hok
            rw [hsl] at hok2
            exact absurd hok2 (by decide)
        · rw [if_pos (by simp [Bool.not_eq_true] at ht; simp [ht])] at hr2b
          exact hdb2 r2 hr2b
    exact ih _ hrestok (hstep db hdb) r hr

end DecisionMaker

/-- C7: no decision-maker ever persisted carries the literal placeholder:
the parser turns a "Not confidently identifiable" `person_name` into a
result with `person_name` absent and a `not_found_reason`, the orchestrator
skips results without a truthy `person_name`, and so after any enrichment
pass every `decision_makers` row has a non-empty `person_name` different
from "Not confidently identifiable".  The only assumptions are that the
regex fallback's person capture is a substring of the matched block and
that the rows already in the table satisfy the invariant. -/
theorem claimC7_person_name_never_placeholder
    (parsed : Option (List DecisionMaker.Entry))
    (blockOf personOf titleOf urlOf confOf : String → Option String)
    (rawText : String) (batch : List String)
    (companyIdOf : String → Option ℕ)
    (db0 : List DecisionMaker.DecisionMakerRow)
    (hcap : ∀ block p, personOf block = some p →
      Str.containsStr block p = true)
    (hdb : ∀ r ∈ db0, DecisionMaker.RowOK r) :
    (∀ res ∈ DecisionMaker.parse_response parsed blockOf personOf titleOf
        urlOf confOf rawText batch,
      ∀ p, res.personName = some p → p ≠ "Not confidently identifiable") ∧
    (∀ r ∈ DecisionMaker.persistDecisionMakers companyIdOf
        (DecisionMaker.parse_response parsed blockOf personOf titleOf urlOf
          confOf rawText batch) db0,
      Str.truthy r.personName = true ∧
      r.personName ≠ "Not confidently identifiable") := by
  constructor
  · intro res hres p hp habs
    have hok := DecisionMaker.parse_response_ok hcap res hres p hp
    have hok2 : Str.containsStr (Str.lower p) ("not confidently") = false :=
      hok
    rw [habs] at hok2
    rw [DecisionMaker.sentinel_not_ok] at hok2
    exact absurd hok2 (by decide)
  · intro r hr
    exact DecisionMaker.persist_ok _ db0
      (DecisionMaker.parse_response_ok hcap) hdb r hr

/-- Witness for C7: the LLM returns the refusal sentinel for "Acme"; the
parsed result has `person_name` absent with the refusal reason preserved,
and nothing is persisted. -/
theorem claimC7_person_name_never_placeholder_witness :
    (∀ block p, (fun _ : String => (none : Option String)) block = some p →
      Str.containsStr block p = true) ∧
    DecisionMaker.parse_response
      (some [⟨"Acme", "Not confidently identifiable", none, none, none, none,
        none, some ("No public info"), "{}"⟩])
      (fun _ => none) (fun _ => none) (fun _ => none) (fun _ => none)
      (fun _ => none) ("") (["Acme"]) =
      [⟨"Acme", none, none, none, none, none, none, some ("No public info"),
        some ("{}")⟩] ∧
    DecisionMaker.persistDecisionMakers (fun _ => some 1)
      (DecisionMaker.parse_response
        (some [⟨"Acme", "Not confidently identifiable", none, none, none,
          none, none, some ("No public info"), "{}"⟩])
        (fun _ => none) (fun _ => none) (fun _ => none) (fun _ => none)
        (fun _ => none) ("") (["Acme"])) [] = [] ∧
    ((∀ res ∈ DecisionMaker.parse_response
        (some [⟨"Acme", "Not confidently identifiable", none, none, none,
          none, none, some ("No public info"), "{}"⟩])
        (fun _ => none) (fun _ => none) (fun _ => none) (fun _ => none)
        (fun _ => none) ("") (["Acme"]),
      ∀ p, res.personName = some p →
        p ≠ "Not confidently identifiable") ∧
     (∀ r ∈ DecisionMaker.persistDecisionMakers (fun _ => some 1)
        (DecisionMaker.parse_response
          (some [⟨"Acme", "Not confidently identifiable", none, none, none,
            none, none, some ("No public info"), "{}"⟩])
          (fun _ => none) (fun _ => none) (fun _ => none) (fun _ => none)
          (fun _ => none) ("") (["Acme"])) [],
      Str.truthy r.personName = true ∧
      r.personName ≠ "Not confidently identifiable")) :=
  ⟨fun _ p h => Option.noConfusion h,
   by decide,
   by decide,
   claimC7_person_name_never_placeholder
     (some [⟨"Acme", "Not confidently identifiable", none, none, none, none,
       none, some ("No public info"), "{}"⟩])
     (fun _ => none) (fun _ => none) (fun _ => none) (fun _ => none)
     (fun _ => none) ("") (["Acme"]) (fun _ => some 1) []
     (fun _ p h => Option.noConfusion h)
     (fun r hr => absurd hr (List.not_mem_nil r))⟩

/-- Batching helper shared by the Gemini and Apollo enrichers: Python
`[xs[i : i + n] for i in range(0, len(xs), n)]`, written with a fuel
argument (the list length) so the recursion is structural. -/
def chunksAux {α : Type} (n : ℕ) : ℕ → List α → List (List α)
  | 0, _ => []
  | _, [] => []
  | fuel + 1, l => l.take n :: chunksAux n fuel (l.drop n)

/-- Python batch slicing `[xs[i : i + n] for i in range(0, len(xs), n)]`. -/
def chunks {α : Type} (n : ℕ) (l : List α) : List (List α) :=
  chunksAux n l.length l

namespace DMFinder

/-- One input dict of `ITDecisionMakerFinder.find_decision_makers`:
`c["company"]` and `c.get("domain", "")`. -/
structure DMCompany where
  company : String
  domain : String
  deriving Repr, DecidableEq

/-- The record appended per company of a failed batch:
`DecisionMakerResult(company_name=company["company"],
not_found_reason=f"API error: \x7be\x7d")`, every other field left at its
default `None`. -/
def dmErrorRecord (c : DMCompany) (e : String) : DecisionMaker.DecisionMakerResult :=
  ⟨c.company, none, none, none, none, none, none, some ("API error: " ++ e), none⟩

/-- Outcome of one batch of the `find_decision_makers` loop: the
`try/except` body.  `pb k b` is the single Gemini call `_process_batch`
for the `k`-th batch (its results on success, the exception text on
failure). -/
def dmStep (pb : ℕ → List DMCompany → Except String (List DecisionMaker.DecisionMakerResult)) :
    ℕ × List DMCompany → List DecisionMaker.DecisionMakerResult
  | (k, batch) =>
    match pb k batch with
    | .ok rs => rs
    | .error e => batch.map (fun c => dmErrorRecord c e)

/-- The `for batch_idx, batch in enumerate(batches)` loop of
`find_decision_makers`: `all_results.extend(...)` per batch, together with
the number of `_process_batch` calls issued (one per batch — the loop body
contains no retry). -/
def dmLoop (pb : ℕ → List DMCompany → Except String (List DecisionMaker.DecisionMakerResult)) :
    ℕ → List (List DMCompany) → List DecisionMaker.DecisionMakerResult × ℕ
  | _, [] => ([], 0)
  | n, b :: rest =>
    let hd := dmStep pb (n, b)
    let tl := dmLoop pb (n + 1) rest
    (hd ++ tl.1, 1 + tl.2)

/-- `ITDecisionMakerFinder.find_decision_makers`: slice the companies into
batches of `batch_size` and run the batch loop.  Returns the result list
and the number of API calls made. -/
def find_decision_makers (batch_size : ℕ)
    (pb : ℕ → List DMCompany → Except String (List DecisionMaker.DecisionMakerResult))
    (companies : List DMCompany) :
    List DecisionMaker.DecisionMakerResult × ℕ :=
  dmLoop pb 0 (chunks batch_size companies)

/-- The batch loop makes exactly one call per batch and concatenates the
per-batch outcomes in order. -/
lemma dmLoop_spec (pb : ℕ → List DMCompany → Except String (List DecisionMaker.DecisionMakerResult)) :
    ∀ (batches : List (List DMCompany)) (n : ℕ),
      dmLoop pb n batches =
        (((List.enumFrom n batches).map (dmStep pb)).flatten, batches.length) := by
  intro batches
  induction batches with
  | nil => intro n; rfl
  | cons b rest ih =>
    intro n
    show (dmStep pb (n, b) ++ (dmLoop pb (n + 1) rest).1,
          1 + (dmLoop pb (n + 1) rest).2) = _
    rw [ih (n + 1)]
    simp [List.enumFrom, Nat.add_comm]

end DMFinder

namespace EmailFinder

/-- The fields of the upstream `DecisionMakerResult` that
`ApolloEmailFinder.find_emails` reads: `dm.company_name`,
`dm.person_name` (optional) and `dm.company_website` (optional). -/
structure DMInput where
  companyName : String
  personName : Option String
  companyWebsite : Option String
  deriving Repr, DecidableEq

/-- One prepared lookup dict of `find_emails`. -/
structure LookupItem where
  companyName : String
  personName : String
  firstName : String
  lastName : String
  domain : String
  deriving Repr, DecidableEq

/-- One element of the Apollo response's `matches` array:
`match.get("email")`, `match.get("linkedin_url")`, `match.get("title")`. -/
structure Match where
  email : Option String
  linkedinUrl : Option String
  title : Option String
  deriving Repr, DecidableEq

/-- `EmailLookupResult` as constructed by `email_finder.py`. -/
structure EmailLookupResult where
  companyName : String
  personName : String
  email : Option String
  linkedinUrl : Option String
  apolloTitle : Option String
  notFoundReason : Option String
  deriving Repr, DecidableEq

/-- Python `" ".join(parts)`. -/
def joinSpaces : List String → String
  | [] => ""
  | [s] => s
  | s :: rest => s ++ " " ++ joinSpaces rest

/-- `ApolloEmailFinder._split_name`: `full_name.strip().split()`, then
`("", "")` for no parts, `(parts[0], "")` for one, and
`(parts[0], " ".join(parts[1:]))` otherwise. -/
def split_name (full_name : String) : String × String :=
  match Str.splitWs (Str.trim full_name) with
  | [] => ("", "")
  | [p] => (p, "")
  | p :: rest => (p, joinSpaces rest)

/-- One iteration of the lookup-item preparation loop of `find_emails`:
skip a decision maker without a truthy `person_name` or without a truthy
first name; the domain is `_extract_domain(dm.company_website)` (passed
as the oracle `extractDomain`) when the website is truthy, else `""`. -/
def lookupItemOf (extractDomain : String → String) (dm : DMInput) : Option LookupItem :=
  match dm.personName with
  | none => none
  | some pn =>
    if Str.truthy pn then
      if Str.truthy (split_name pn).1 then
        some ⟨dm.companyName, pn, (split_name pn).1, (split_name pn).2,
          match dm.companyWebsite with
          | none => ""
          | some w => if Str.truthy w then extractDomain w else ""⟩
      else none
    else none

/-- The `lookup_items` list built by `find_emails` before batching. -/
def lookupItemsOf (extractDomain : String → String) (dms : List DMInput) : List LookupItem :=
  dms.filterMap (lookupItemOf extractDomain)

/-- The record appended per item of a failed Apollo batch:
`EmailLookupResult(company_name=..., person_name=...,
not_found_reason=f"API error: \x7be\x7d")`. -/
def emailErrorRecord (item : LookupItem) (e : String) : EmailLookupResult :=
  ⟨item.companyName, item.personName, none, none, none, some ("API error: " ++ e)⟩

/-- Outcome of one batch of the `find_emails` loop (the `try/except`
body); `pb k b` is the single `_process_batch` HTTP call for the `k`-th
batch. -/
def emailStep (pb : ℕ → List LookupItem → Except String (List EmailLookupResult)) :
    ℕ × List LookupItem → List EmailLookupResult
  | (k, batch) =>
    match pb k batch with
    | .ok rs => rs
    | .error e => batch.map (fun item => emailErrorRecord item e)

/-- The `for batch_idx, batch in enumerate(batches)` loop of
`find_emails`, with the number of `_process_batch` calls issued (one per
batch — the loop body contains no retry). -/
def emailLoop (pb : ℕ → List LookupItem → Except String (List EmailLookupResult)) :
    ℕ → List (List LookupItem) → List EmailLookupResult × ℕ
  | _, [] => ([], 0)
  | n, b :: rest =>
    let hd := emailStep pb (n, b)
    let tl := emailLoop pb (n + 1) rest
    (hd ++ tl.1, 1 + tl.2)

/-- `ApolloEmailFinder.find_emails`: prepare lookup items, slice them into
batches of `min(batch_size, 10)` (the constructor caps the batch size at
Apollo's maximum of 10) and run the batch loop. -/
def find_emails (batch_size : ℕ)
    (pb : ℕ → List LookupItem → Except String (List EmailLookupResult))
    (extractDomain : String → String) (dms : List DMInput) :
    List EmailLookupResult × ℕ :=
  emailLoop pb 0 (chunks (min batch_size 10) (lookupItemsOf extractDomain dms))

/-- The Apollo batch loop makes exactly one call per batch and
concatenates the per-batch outcomes in order. -/
lemma emailLoop_spec (pb : ℕ → List LookupItem → Except String (List EmailLookupResult)) :
    ∀ (batches : List (List LookupItem)) (n : ℕ),
      emailLoop pb n batches =
        (((List.enumFrom n batches).map (emailStep pb)).flatten, batches.length) := by
  intro batches
  induction batches with
  | nil => intro n; rfl
  | cons b rest ih =>
    intro n
    show (emailStep pb (n, b) ++ (emailLoop pb (n + 1) rest).1,
          1 + (emailLoop pb (n + 1) rest).2) = _
    rw [ih (n + 1)]
    simp [List.enumFrom, Nat.add_comm]

/-- The per-item parse of `_process_batch`: a present (truthy) match with
a truthy email is a success; a present match without one carries
`linkedin_url` and the literal reason
`"Matched in Apollo but no email available"`; a missing or falsy match
yields `"No match found in Apollo"`. -/
def parseMatchResult (item : LookupItem) (m : Option Match) : EmailLookupResult :=
  match m with
  | some mt =>
    if Str.truthyOpt mt.email then
      ⟨item.companyName, item.personName, mt.email, mt.linkedinUrl, mt.title, none⟩
    else
      ⟨item.companyName, item.personName, none, mt.linkedinUrl, mt.title,
        some ("Matched in Apollo but no email available")⟩
  | none =>
    ⟨item.companyName, item.personName, none, none, none,
      some ("No match found in Apollo")⟩

/-- The `for i, item in enumerate(batch)` loop of `_process_batch`; the
guard `if i < len(matches) and matches[i]` is `mArr.getD i none`. -/
def processAux (mArr : List (Option Match)) : ℕ → List LookupItem → List EmailLookupResult
  | _, [] => []
  | i, item :: rest => parseMatchResult item (mArr.getD i none) :: processAux mArr (i + 1) rest

/-- `ApolloEmailFinder._process_batch`, from the parsed `matches` array of
the Apollo response. -/
def process_batch (batch : List LookupItem) (mArr : List (Option Match)) :
    List EmailLookupResult :=
  processAux mArr 0 batch

/-- Position `i` of the parse loop's output is the parse of input `i`
against match `n + i`. -/
lemma processAux_getElem (mArr : List (Option Match)) :
    ∀ (batch : List LookupItem) (n i : ℕ),
      (processAux mArr n batch)[i]? =
        (batch[i]?).map (fun item => parseMatchResult item (mArr.getD (n + i) none)) := by
  intro batch
  induction batch with
  | nil => intro n i; simp [processAux]
  | cons item rest ih =>
    intro n i
    cases i with
    | zero => simp [processAux]
    | succ i =>
      simp only [processAux, List.getElem?_cons_succ]
      rw [ih (n + 1) i]
      have h : n + 1 + i = n + (i + 1) := by omega
      rw [h]

/-- The parse loop returns one result per input item. -/
lemma processAux_length (mArr : List (Option Match)) :
    ∀ (batch : List LookupItem) (n : ℕ),
      (processAux mArr n batch).length = batch.length := by
  intro batch
  induction batch with
  | nil => intro n; rfl
  | cons item rest ih => intro n; simp [processAux, ih (n + 1)]

end EmailFinder

namespace ColdEmailPersonalization

/-- `MAX_RETRIES = 5` from `ColdEmailPersonalization/main.py`. -/
def MAX_RETRIES : ℕ := 5

/-- `BASE_RETRY_DELAY = 2` (seconds) from `ColdEmailPersonalization/main.py`. -/
def BASE_RETRY_DELAY : ℕ := 2

/-- The rate-limit test of the `summarize_page` retry loop:
`"429" in error_str or "rate limit" in error_str.lower() or
"quota" in error_str.lower()`. -/
def isRateLimitError (e : String) : Bool :=
  Str.containsStr e ("429") ||
  Str.containsStr (Str.lower e) ("rate limit") ||
  Str.containsStr (Str.lower e) ("quota")

/-- The `for attempt in range(MAX_RETRIES)` body of `summarize_page`.
`oracle attempt` is the outcome of the one OpenAI call of that attempt
(the parsed abstract, or the exception text).  Returns the final string,
the number of calls made, and the list of backoff delays slept, in order:
a rate-limited attempt sleeps `BASE_RETRY_DELAY * 2 ** attempt` and
continues; any other error returns `"no content"` at once; an exhausted
loop returns `"no content"`. -/
def summarizeAux (oracle : ℕ → Except String String) :
    ℕ → ℕ → List ℕ → String × ℕ × List ℕ
  | 0, attempt, delays => ("no content", attempt, delays.reverse)
  | fuel + 1, attempt, delays =>
    match oracle attempt with
    | .ok abstract => (abstract, attempt + 1, delays.reverse)
    | .error e =>
      if isRateLimitError e then
        summarizeAux oracle fuel (attempt + 1)
          ((BASE_RETRY_DELAY * 2 ^ attempt) :: delays)
      else ("no content", attempt + 1, delays.reverse)

/-- `LeadProcessor.summarize_page`: the retry loop started at attempt 0
with `MAX_RETRIES` attempts available. -/
def summarize_page (oracle : ℕ → Except String String) : String × ℕ × List ℕ :=
  summarizeAux oracle MAX_RETRIES 0 []

/-- Characterisation of the retry loop when attempts `attempt, …, k - 1`
fail rate-limited and attempt `k` succeeds: every failed attempt sleeps
`BASE_RETRY_DELAY * 2 ^ attempt` and the loop returns the success value
after `k + 1` calls. -/
lemma summarizeAux_spec (oracle : ℕ → Except String String) :
    ∀ (fuel attempt k : ℕ) (a : String) (delays : List ℕ),
      attempt ≤ k → k < attempt + fuel →
      (∀ j, attempt ≤ j → j < k →
        ∃ e, oracle j = .error e ∧ isRateLimitError e = true) →
      oracle k = .ok a →
      summarizeAux oracle fuel attempt delays =
        (a, k + 1, delays.reverse ++
          (List.range' attempt (k - attempt)).map
            (fun j => BASE_RETRY_DELAY * 2 ^ j)) := by
  intro fuel
  induction fuel with
  | zero => intro attempt k a delays h1 h2 h3 h4; omega
  | succ fuel ih =>
    intro attempt k a delays h1 h2 h3 h4
    by_cases hk : attempt = k
    · subst hk
      simp only [summarizeAux, h4]
      simp
    · have hlt : attempt < k := lt_of_le_of_ne h1 hk
      obtain ⟨e, he, hrl⟩ := h3 attempt le_rfl hlt
      simp only [summarizeAux, he]
      rw [if_pos hrl]
      rw [ih (attempt + 1) k a ((BASE_RETRY_DELAY * 2 ^ attempt) :: delays)
        (by omega) (by omega) (fun j hj1 hj2 => h3 j (by omega) hj2) h4]
      have hn : k - attempt = (k - (attempt + 1)) + 1 := by omega
      rw [hn, List.range'_succ]
      simp

end ColdEmailPersonalization

/-- C8 (counterexample to the retry conjunct): the decision-maker finder
does not retry a rate-limited batch.  With a single company and a Gemini
call that always fails with a recognised rate-limit error
("429 Too Many Requests"), the enricher would have to issue at least a
second call if it retried; in fact it issues exactly one call and falls
straight through to the per-company error record. -/
theorem claimC8_counterexample :
    ¬ (∀ (pb : ℕ → List DMFinder.DMCompany →
          Except String (List DecisionMaker.DecisionMakerResult))
        (cs : List DMFinder.DMCompany),
        (∀ k b, ∃ e, pb k b = .error e ∧
          ColdEmailPersonalization.isRateLimitError e = true) →
        cs = [] ∨ 2 ≤ (DMFinder.find_decision_makers 5 pb cs).2) := by
  intro h
  have h1 := h (fun _ _ => .error ("429 Too Many Requests"))
      [⟨"Acme", "acme.com"⟩]
      (fun k b => ⟨"429 Too Many Requests", rfl, by decide⟩)
  rcases h1 with h1 | h1
  · exact absurd h1 (List.cons_ne_nil _ _)
  · have h2 : (DMFinder.find_decision_makers 5
        (fun _ _ => .error ("429 Too Many Requests"))
        [⟨"Acme", "acme.com"⟩]).2 = 1 := rfl
    rw [h2] at h1
    exact absurd h1 (by decide)

/-- C8 (amended): neither batch enricher retries at all — each issues
exactly one API call per batch, a failed batch (rate-limited or not)
contributes one `"API error: …"` record per company or lookup item of
that batch while the remaining batches are still processed (the output is
the in-order concatenation of the independent per-batch outcomes) — and
the claimed recognition of 429 / "rate limit" / "quota" with exponential
backoff `delay = 2 * 2 ^ attempt` up to 5 attempts exists only in the
`summarize_page` loop of the personalization script, which retries
rate-limited attempts with exactly those delays and gives up immediately,
returning `"no content"`, on any other error. -/
theorem claimC8_no_retry_backoff_only_in_personalizer :
    (∀ (bs : ℕ)
       (pb : ℕ → List DMFinder.DMCompany →
         Except String (List DecisionMaker.DecisionMakerResult))
       (cs : List DMFinder.DMCompany),
       DMFinder.find_decision_makers bs pb cs =
         (((List.enumFrom 0 (chunks bs cs)).map (DMFinder.dmStep pb)).flatten,
          (chunks bs cs).length)) ∧
    (∀ (bs : ℕ)
       (pb : ℕ → List EmailFinder.LookupItem →
         Except String (List EmailFinder.EmailLookupResult))
       (extractDomain : String → String) (dms : List EmailFinder.DMInput),
       EmailFinder.find_emails bs pb extractDomain dms =
         (((List.enumFrom 0
              (chunks (min bs 10) (EmailFinder.lookupItemsOf extractDomain dms))).map
             (EmailFinder.emailStep pb)).flatten,
          (chunks (min bs 10) (EmailFinder.lookupItemsOf extractDomain dms)).length)) ∧
    (∀ (oracle : ℕ → Except String String) (k : ℕ) (a : String),
       k < ColdEmailPersonalization.MAX_RETRIES →
       (∀ j, j < k → ∃ e, oracle j = .error e ∧
         ColdEmailPersonalization.isRateLimitError e = true) →
       oracle k = .ok a →
       ColdEmailPersonalization.summarize_page oracle =
         (a, k + 1, (List.range k).map
           (fun j => ColdEmailPersonalization.BASE_RETRY_DELAY * 2 ^ j))) ∧
    (∀ (oracle : ℕ → Except String String) (e : String),
       oracle 0 = .error e →
       ColdEmailPersonalization.isRateLimitError e = false →
       ColdEmailPersonalization.summarize_page oracle = ("no content", 1, [])) := by
  refine ⟨?_, ?_, ?_, ?_⟩
  · intro bs pb cs
    exact DMFinder.dmLoop_spec pb (chunks bs cs) 0
  · intro bs pb extractDomain dms
    exact EmailFinder.emailLoop_spec pb _ 0
  · intro oracle k a hk hfail hok
    have h := ColdEmailPersonalization.summarizeAux_spec oracle
      ColdEmailPersonalization.MAX_RETRIES 0 k a [] (Nat.zero_le k)
      (by omega) (fun j hj1 hj2 => hfail j hj2) hok
    rw [ColdEmailPersonalization.summarize_page, h]
    rw [List.range_eq_range']
    simp
  · intro oracle e he hrl
    rw [ColdEmailPersonalization.summarize_page]
    simp only [ColdEmailPersonalization.summarizeAux, he]
    rw [if_neg (by rw [hrl]; exact Bool.false_ne_true)]
    rfl

/-- Attempt outcomes for the retry-loop witness: two rate-limited
failures, then success. -/
def c8SuccessOracle : ℕ → Except String String
  | 0 => .error ("HTTP 429 Too Many Requests")
  | 1 => .error ("Resource exhausted: please check your quota")
  | _ => .ok ("Acme builds marketing software.")

/-- Attempt outcomes for the give-up witness: a non-rate-limit failure. -/
def c8FailOracle : ℕ → Except String String
  | _ => .error ("connection reset")

/-- Witness for C8: the summarize loop sleeps 2 s then 4 s over two
rate-limited attempts and returns the third attempt's abstract after
three calls; a non-rate-limit error ends it after one call with
"no content" and no sleeping. -/
theorem claimC8_no_retry_backoff_only_in_personalizer_witness :
    ColdEmailPersonalization.summarize_page c8SuccessOracle =
      ("Acme builds marketing software.", 2 + 1,
       (List.range 2).map
         (fun j => ColdEmailPersonalization.BASE_RETRY_DELAY * 2 ^ j)) ∧
    ColdEmailPersonalization.summarize_page c8FailOracle =
      ("no content", 1, []) :=
  ⟨claimC8_no_retry_backoff_only_in_personalizer.2.2.1 c8SuccessOracle 2
      ("Acme builds marketing software.") (by decide)
      (by
        intro j hj
        rcases j with _ | _ | j
        · exact ⟨"HTTP 429 Too Many Requests", rfl, by decide⟩
        · exact ⟨"Resource exhausted: please check your quota", rfl, by decide⟩
        · omega)
      rfl,
   claimC8_no_retry_backoff_only_in_personalizer.2.2.2 c8FailOracle
      ("connection reset") rfl (by decide)⟩

/-- C9 (counterexample to the reason string): a person matched by Apollo
without an email gets `not_found_reason =
"Matched in Apollo but no email available"`, not the claimed literal
`"Matched but no email available"`. -/
theorem claimC9_counterexample :
    ¬ (∀ (item : EmailFinder.LookupItem) (mt : EmailFinder.Match),
        Str.truthyOpt mt.email = false →
        (EmailFinder.process_batch [item] [some mt])[0]? =
          some ⟨item.companyName, item.personName, none, mt.linkedinUrl,
            mt.title, some ("Matched but no email available")⟩) := by
  intro h
  have h1 := h ⟨"Acme", "Jane Doe", "Jane", "Doe", "acme.com"⟩
      ⟨none, some ("https://linkedin.com/in/jane"), some ("CMO")⟩ rfl
  exact absurd h1 (by decide)

/-- C9 (amended): for every input position `i` of an Apollo batch whose
match is present but whose email is absent or empty, `_process_batch`
emits, at the same position, a result with no email, `linkedin_url` and
`apollo_title` copied from the match, and `not_found_reason` equal to the
exact string "Matched in Apollo but no email available". -/
theorem claimC9_matched_no_email
    (batch : List EmailFinder.LookupItem)
    (mArr : List (Option EmailFinder.Match)) (i : ℕ)
    (item : EmailFinder.LookupItem) (mt : EmailFinder.Match)
    (hitem : batch[i]? = some item)
    (hmt : mArr.getD i none = some mt)
    (hemail : Str.truthyOpt mt.email = false) :
    (EmailFinder.process_batch batch mArr)[i]? =
      some ⟨item.companyName, item.personName, none, mt.linkedinUrl,
        mt.title, some ("Matched in Apollo but no email available")⟩ := by
  rw [EmailFinder.process_batch, EmailFinder.processAux_getElem, hitem]
  have h0 : (0 : ℕ) + i = i := Nat.zero_add i
  rw [h0, hmt]
  simp only [Option.map_some']
  rw [EmailFinder.parseMatchResult]
  rw [if_neg (by rw [hemail]; exact Bool.false_ne_true)]

/-- Witness for C9: a match for Jane Doe with a LinkedIn URL and a title
but no email produces exactly the matched-no-email record. -/
theorem claimC9_matched_no_email_witness :
    ([(⟨"Acme", "Jane Doe", "Jane", "Doe", "acme.com"⟩ : EmailFinder.LookupItem)]
        : List EmailFinder.LookupItem)[0]? =
      some ⟨"Acme", "Jane Doe", "Jane", "Doe", "acme.com"⟩ ∧
    (EmailFinder.process_batch
        [⟨"Acme", "Jane Doe", "Jane", "Doe", "acme.com"⟩]
        [some ⟨none, some ("https://linkedin.com/in/jane"), some ("CMO")⟩])[0]? =
      some ⟨"Acme", "Jane Doe", none, some ("https://linkedin.com/in/jane"),
        some ("CMO"), some ("Matched in Apollo but no email available")⟩ :=
  ⟨rfl,
   claimC9_matched_no_email
      [⟨"Acme", "Jane Doe", "Jane", "Doe", "acme.com"⟩]
      [some ⟨none, some ("https://linkedin.com/in/jane"), some ("CMO")⟩] 0
      ⟨"Acme", "Jane Doe", "Jane", "Doe", "acme.com"⟩
      ⟨none, some ("https://linkedin.com/in/jane"), some ("CMO")⟩
      rfl rfl rfl⟩
